import Mathlib

/-!
Verification of the crux_cli codegen core (formatter.rs, node.rs, parser.rs)
against its natural-language specification.

The Rust data model from rustdoc_types is embedded shallowly:
identifiers become Nat-backed structures, `Type` becomes the mutual
inductive family `RustType`/`RPath`/..., items become `Item`.  Code that
can panic (`todo!`, `panic!`, out-of-bounds indexing) is modelled in the
`Except String` monad, where `.error` marks a panic.
-/

/-- The rustdoc item identifier (crate-local). Mirrors rustdoc_types::Id. -/
structure RId where
  id : Nat
deriving DecidableEq, Repr

mutual

/-- Mirrors rustdoc_types::Type.  Payloads that the repository never reads
(lifetimes, trait bounds, generics of unused shapes) are reduced to the
pieces the code inspects. -/
inductive RustType : Type where
  | resolvedPath (path : RPath)
  | dynTrait
  | generic (s : String)
  | primitive (s : String)
  | functionPointer
  | tuple (ts : RustTypeList)
  | slice (t : RustType)
  | array (t : RustType) (len : String)
  | pat (t : RustType)
  | implTrait
  | infer
  | rawPointer (is_mutable : Bool) (t : RustType)
  | borrowedRef (is_mutable : Bool) (t : RustType)
  | qualifiedPath (name : String) (qargs : RGenericArgs) (self_type : RustType)
deriving DecidableEq, Repr

/-- Mirrors rustdoc_types::Path: a name, a resolved id and optional generic
arguments. -/
inductive RPath : Type where
  | mk (name : String) (id : RId) (pargs : ROptArgs)
deriving DecidableEq, Repr

/-- Option of RGenericArgs, spelled out so the family stays mutual rather
than nested. -/
inductive ROptArgs : Type where
  | none
  | some (args : RGenericArgs)
deriving DecidableEq, Repr

/-- Mirrors rustdoc_types::GenericArgs. -/
inductive RGenericArgs : Type where
  | angleBracketed (args : RGenericArgList)
  | parenthesized (inputs : RustTypeList) (output : ROptType)
deriving DecidableEq, Repr

/-- Option of RustType, spelled out for mutuality. -/
inductive ROptType : Type where
  | none
  | some (t : RustType)
deriving DecidableEq, Repr

/-- Mirrors rustdoc_types::GenericArg. -/
inductive RGenericArg : Type where
  | lifetime (s : String)
  | type (t : RustType)
  | const
  | inferArg
deriving DecidableEq, Repr

/-- List of RGenericArg, spelled out for mutuality. -/
inductive RGenericArgList : Type where
  | nil
  | cons (head : RGenericArg) (tail : RGenericArgList)
deriving DecidableEq, Repr

/-- List of RustType, spelled out for mutuality. -/
inductive RustTypeList : Type where
  | nil
  | cons (head : RustType) (tail : RustTypeList)
deriving DecidableEq, Repr

end

/-- RPath field accessors. -/
def RPath.name : RPath → String
  | .mk n _ _ => n

def RPath.pathId : RPath → RId
  | .mk _ i _ => i

def RPath.pargs : RPath → ROptArgs
  | .mk _ _ a => a

/-- Mirrors rustdoc_types::StructKind. -/
inductive StructKind : Type where
  | unit
  | tuple (fields : List (Option RId))
  | plain (fields : List RId) (has_stripped_fields : Bool)
deriving DecidableEq, Repr

/-- Mirrors rustdoc_types::VariantKind. -/
inductive VariantKind : Type where
  | plain
  | tuple (fields : List (Option RId))
  | struct (fields : List RId) (has_stripped_fields : Bool)
deriving DecidableEq, Repr

/-- Mirrors rustdoc_types::ItemEnum, reduced to the payloads the repository
reads.  Kinds whose payload is never inspected are payload-free. -/
inductive ItemEnum : Type where
  | module
  | externCrate
  | useItem
  | union
  | struct (kind : StructKind)
  | structField (type_ : RustType)
  | enum (variants : List RId)
  | variant (kind : VariantKind)
  | function
  | trait
  | traitAlias
  | impl (trait_ : Option RPath) (for_ : RustType) (items : List RId)
  | typeAlias
  | constant
  | staticItem
  | externType
  | macroDef
  | procMacro
  | primitiveItem
  | assocConst
  | assocType (type_ : Option RustType)
deriving DecidableEq, Repr

/-- Mirrors rustdoc_types::Item restricted to the fields the repository
reads: id, crate_id, name, attrs, inner.  (span, visibility, docs, links
and deprecation are never inspected by the code under verification.) -/
structure Item where
  id : RId
  crate_id : Nat
  name : Option String
  attrs : List String
  inner : ItemEnum
deriving DecidableEq, Repr

/-- Mirrors node.rs ItemNode(pub Item).  Rust derives PartialEq/Eq, so node
equality is structural equality of the whole item; that is Lean `=` here. -/
structure ItemNode where
  item : Item
deriving DecidableEq, Repr

/-- Mirrors rustdoc_types::ItemSummary restricted to what the repository
reads: the crate id and the module path (the kind field is never read). -/
structure ItemSummary where
  crate_id : Nat
  path : List String
deriving DecidableEq, Repr

/-- Mirrors node.rs SummaryNode. -/
structure SummaryNode where
  id : RId
  summary : ItemSummary
deriving DecidableEq, Repr

/-- The pair fed to the hasher by node.rs `impl Hash for ItemNode`:
`(crate_id, id)`.  The hash of a node is a function of this key alone. -/
def itemNodeHashKey (n : ItemNode) : Nat × RId :=
  (n.item.crate_id, n.item.id)

/-- The data fed to the hasher by node.rs `impl Hash for SummaryNode`: the
summary's module path. -/
def summaryNodeHashKey (s : SummaryNode) : List String :=
  s.summary.path

/-- Mirrors node.rs `impl PartialEq for SummaryNode`: equality compares the
module paths only. -/
def summaryNodeEq (a b : SummaryNode) : Prop :=
  a.summary.path = b.summary.path

/-- Mirrors node.rs SummaryNode::in_same_module_as.  (For an empty path the
Rust code would panic on `len() - 1`; Nat subtraction makes the model total
there, a case that cannot arise for rustdoc module paths.) -/
def SummaryNode.in_same_module_as (a other : SummaryNode) : Bool :=
  let this := a.summary.path
  let otherP := other.summary.path
  if this.length ≠ otherP.length then false
  else decide (this.take (this.length - 1) = otherP.take (otherP.length - 1))

/-! ### Attribute matching

The Rust code matches serde attributes with the regexes
rename:  bracket serde ( rename ws* = ws* quote word+ quote ) bracket,
rename_all and with analogous, and skip: bracket serde ws* ( ws* skip
ws* ) ws* bracket, each found anywhere in the attribute string.  The
matchers below implement exactly those patterns over the character list
of the attribute.  The regex classes are modelled as: word characters are
ASCII alphanumerics and underscore, whitespace is Char.isWhitespace. -/

def isWordChar (c : Char) : Bool :=
  c.isAlphanum || c == '_'

/-- Splits the maximal word-character prefix (greedy word+ capture). -/
def takeWord : List Char → List Char × List Char
  | [] => ([], [])
  | c :: rest =>
    if isWordChar c then
      let (w, r) := takeWord rest
      (c :: w, r)
    else ([], c :: rest)

/-- Drops leading whitespace (ws*). -/
def dropWs : List Char → List Char
  | [] => []
  | c :: rest => if c.isWhitespace then dropWs rest else c :: rest

/-- Strips a literal prefix, returning the remainder on success. -/
def stripLit : List Char → List Char → Option (List Char)
  | [], l => Option.some l
  | _ :: _, [] => Option.none
  | p :: ps, c :: cs => if c = p then stripLit ps cs else Option.none

/-- Tries to match, at the start of `l`, the pattern
bracket serde ( KEY ws* = ws* quote (word+) quote ) bracket
returning the captured word. -/
def matchKeyValAt (key : List Char) (l : List Char) : Option String :=
  match stripLit ('[' :: ("serde(".data ++ key)) l with
  | Option.none => Option.none
  | Option.some l =>
    match stripLit ['='] (dropWs l) with
    | Option.none => Option.none
    | Option.some l =>
      match stripLit ['\"'] (dropWs l) with
      | Option.none => Option.none
      | Option.some l =>
        match takeWord l with
        | (w, l) =>
          if w.isEmpty then Option.none
          else
            match stripLit ['\"', ')', ']'] l with
            | Option.none => Option.none
            | Option.some _ => Option.some (String.mk w)

/-- Scans for the leftmost position where the key-value pattern matches
(regex find semantics). -/
def findKeyVal (key : List Char) : List Char → Option String
  | [] => Option.none
  | l@(_ :: rest) =>
    match matchKeyValAt key l with
    | Option.some v => Option.some v
    | Option.none => findKeyVal key rest

/-- The `serde(rename = "X")` capture of one attribute string. -/
def getRename (attr : String) : Option String :=
  findKeyVal "rename".data attr.data

/-- The `serde(rename_all = "X")` capture of one attribute string. -/
def getRenameAll (attr : String) : Option String :=
  findKeyVal "rename_all".data attr.data

/-- The `serde(with = "X")` capture of one attribute string. -/
def getSerdeWith (attr : String) : Option String :=
  findKeyVal "with".data attr.data

/-- Tries to match the whitespace-tolerant skip pattern at the start of
`l`. -/
def matchSkipAt (l : List Char) : Bool :=
  (do
    let l ← stripLit "[serde".data l
    let l := dropWs l
    let l ← stripLit ['('] l
    let l := dropWs l
    let l ← stripLit "skip".data l
    let l := dropWs l
    let l ← stripLit [')'] l
    let l := dropWs l
    let _ ← stripLit [']'] l
    pure () : Option Unit).isSome

/-- Whether the skip pattern matches anywhere in the character list. -/
def containsSkip : List Char → Bool
  | [] => false
  | l@(_ :: rest) => matchSkipAt l || containsSkip rest

/-- Whether one attribute string matches the whitespace-tolerant
`#[serde(skip)]` regex of node.rs. -/
def isSkipAttr (attr : String) : Bool :=
  containsSkip attr.data

/-! ### Rename rules -/

/-- Modelled from the spec: the file serde/case.rs is absent from src/.
Section 4.6 lists the recognised rules: lowercase, UPPERCASE, PascalCase,
camelCase, snake_case, SCREAMING_SNAKE_CASE, kebab-case,
SCREAMING-KEBAB-CASE, with none or an unknown spelling meaning identity. -/
inductive RenameRule : Type where
  | None
  | LowerCase
  | UpperCase
  | PascalCase
  | CamelCase
  | SnakeCase
  | ScreamingSnakeCase
  | KebabCase
  | ScreamingKebabCase
deriving DecidableEq, Repr

/-- Modelled from the spec: maps the exact attribute tokens of section 4.6
to rules; anything else is unrecognised. -/
def RenameRule.from_str (s : String) : Option RenameRule :=
  if s = "lowercase" then Option.some .LowerCase
  else if s = "UPPERCASE" then Option.some .UpperCase
  else if s = "PascalCase" then Option.some .PascalCase
  else if s = "camelCase" then Option.some .CamelCase
  else if s = "snake_case" then Option.some .SnakeCase
  else if s = "SCREAMING_SNAKE_CASE" then Option.some .ScreamingSnakeCase
  else if s = "kebab-case" then Option.some .KebabCase
  else if s = "SCREAMING-KEBAB-CASE" then Option.some .ScreamingKebabCase
  else Option.none

def lowerChars (l : List Char) : List Char := l.map Char.toLower

def upperChars (l : List Char) : List Char := l.map Char.toUpper

/-- Lowercases the first character only (camelCase from PascalCase). -/
def lowerFirst : List Char → List Char
  | [] => []
  | c :: rest => Char.toLower c :: rest

/-- PascalCase to snake_case: an underscore before every non-leading
uppercase letter, everything lowercased. -/
def pascalToSnake : List Char → List Char
  | [] => []
  | c :: rest =>
    Char.toLower c :: (rest.flatMap (fun d =>
      if d.isUpper then ['_', Char.toLower d] else [d]))

/-- Replaces underscores with hyphens. -/
def underscoreToHyphen (l : List Char) : List Char :=
  l.map (fun c => if c = '_' then '-' else c)

/-- snake_case to PascalCase: capitalise after each underscore, dropping
the underscores. -/
def snakeToPascal (l : List Char) : List Char :=
  (l.foldl (fun acc c =>
    match acc with
    | (out, cap) =>
      if c = '_' then (out, true)
      else if cap then (out ++ [Char.toUpper c], false)
      else (out ++ [c], false)) ([], true)).1

/-- Modelled from the spec: section 4.6, variants are assumed input in
Pascal case. -/
def RenameRule.apply_to_variant (r : RenameRule) (variant : String) : String :=
  match r with
  | .None => variant
  | .PascalCase => variant
  | .LowerCase => String.mk (lowerChars variant.data)
  | .UpperCase => String.mk (upperChars variant.data)
  | .CamelCase => String.mk (lowerFirst variant.data)
  | .SnakeCase => String.mk (pascalToSnake variant.data)
  | .ScreamingSnakeCase => String.mk (upperChars (pascalToSnake variant.data))
  | .KebabCase => String.mk (underscoreToHyphen (pascalToSnake variant.data))
  | .ScreamingKebabCase =>
    String.mk (underscoreToHyphen (upperChars (pascalToSnake variant.data)))

/-- Modelled from the spec: section 4.6, fields are assumed input in snake
case. -/
def RenameRule.apply_to_field (r : RenameRule) (field : String) : String :=
  match r with
  | .None => field
  | .LowerCase => field
  | .SnakeCase => field
  | .UpperCase => String.mk (upperChars field.data)
  | .ScreamingSnakeCase => String.mk (upperChars field.data)
  | .PascalCase => String.mk (snakeToPascal field.data)
  | .CamelCase => String.mk (lowerFirst (snakeToPascal field.data))
  | .KebabCase => String.mk (underscoreToHyphen field.data)
  | .ScreamingKebabCase => String.mk (underscoreToHyphen (upperChars field.data))

/-! ### The node adapter (node.rs ItemNode) -/

/-- Mirrors ItemNode::name: the last `serde(rename = ...)` capture over the
attribute list wins; if none matched the source name is used. -/
def ItemNode.name (n : ItemNode) : Option String :=
  let new_name := n.item.attrs.foldl
    (fun acc attr =>
      match getRename attr with
      | Option.some v => v
      | Option.none => acc) ""
  if new_name = "" then n.item.name else Option.some new_name

/-- Mirrors ItemNode::has_summary. -/
def ItemNode.has_summary (n : ItemNode) (s : SummaryNode) : Bool :=
  n.item.id = s.id

/-- Mirrors ItemNode::is_struct. -/
def ItemNode.is_struct (n : ItemNode) : Bool :=
  match n.item.inner with
  | .struct _ => true
  | _ => false

/-- Mirrors ItemNode::is_struct_unit. -/
def ItemNode.is_struct_unit (n : ItemNode) : Bool :=
  match n.item.inner with
  | .struct .unit => true
  | _ => false

/-- Mirrors ItemNode::is_struct_plain. -/
def ItemNode.is_struct_plain (n : ItemNode) : Bool :=
  match n.item.inner with
  | .struct (.plain _ _) => true
  | _ => false

/-- Mirrors ItemNode::is_struct_tuple. -/
def ItemNode.is_struct_tuple (n : ItemNode) : Bool :=
  match n.item.inner with
  | .struct (.tuple _) => true
  | _ => false

/-- Mirrors ItemNode::is_enum. -/
def ItemNode.is_enum (n : ItemNode) : Bool :=
  match n.item.inner with
  | .enum _ => true
  | _ => false

/-- Mirrors ItemNode::is_impl_for. -/
def ItemNode.is_impl_for (n : ItemNode) (for_ : ItemNode) (trait_name : String) : Bool :=
  match n.item.inner with
  | .impl (Option.some (.mk name _ _)) (.resolvedPath (.mk _ id _)) _ =>
    name = trait_name && id = for_.item.id
  | _ => false

/-- Mirrors ItemNode::should_skip: any attribute matches the
whitespace-tolerant skip regex. -/
def ItemNode.should_skip (n : ItemNode) : Bool :=
  n.item.attrs.any isSkipAttr

/-- The declared child-field ids of a struct or variant, in declaration
order (the `field_ids` computed inside ItemNode::fields). -/
def declaredFieldIds (n : ItemNode) : List RId :=
  match n.item.inner with
  | .struct (.plain fields _) => fields
  | .struct (.tuple fields) => fields.filterMap id
  | .struct .unit => []
  | .variant .plain => []
  | .variant (.tuple fields) => fields.filterMap id
  | .variant (.struct fields _) => fields
  | _ => []

/-- Mirrors ItemNode::fields: filters the declared field ids through the
candidates, preserving declaration order and excluding skipped ones. -/
def ItemNode.fields (n : ItemNode) (candidates : List ItemNode) : List ItemNode :=
  (declaredFieldIds n).filterMap
    (fun i => candidates.find? (fun f => !f.should_skip && f.item.id = i))

/-- Mirrors ItemNode::has_field. -/
def ItemNode.has_field (n : ItemNode) (field : ItemNode) : Bool :=
  if field.should_skip then false
  else
    match n.item.inner with
    | .struct kind =>
      if field.name = Option.some "__private_field" then false
      else
        match kind with
        | .unit => false
        | .tuple fields => fields.contains (Option.some field.item.id)
        | .plain fields _ => fields.contains field.item.id
    | .variant kind =>
      match kind with
      | .plain => false
      | .tuple fields => fields.contains (Option.some field.item.id)
      | .struct fields _ => fields.contains field.item.id
    | _ => false

/-- The declared variant ids of an enum (the `variant_ids` inside
ItemNode::variants). -/
def declaredVariantIds (n : ItemNode) : List RId :=
  match n.item.inner with
  | .enum variants => variants
  | _ => []

/-- Mirrors ItemNode::variants. -/
def ItemNode.variants (n : ItemNode) (candidates : List ItemNode) : List ItemNode :=
  (declaredVariantIds n).filterMap
    (fun i => candidates.find? (fun v => !v.should_skip && v.item.id = i))

/-- Mirrors ItemNode::has_variant. -/
def ItemNode.has_variant (n : ItemNode) (variant : ItemNode) : Bool :=
  if variant.should_skip then false
  else
    match n.item.inner with
    | .enum variants => variants.contains variant.item.id
    | _ => false

/-- Mirrors ItemNode::has_associated_item. -/
def ItemNode.has_associated_item (n : ItemNode) (associated_item : ItemNode)
    (with_name : String) : Bool :=
  match n.item.inner with
  | .impl _ _ items =>
    match associated_item.item.name with
    | Option.some name => with_name = name && items.contains associated_item.item.id
    | Option.none => false
  | _ => false

mutual

/-- Mirrors node.rs check_type. -/
def check_type (parent : RId) (type_ : RustType) (is_remote : Bool) : Bool :=
  match type_ with
  | .resolvedPath (.mk name id pargs) =>
    if is_remote && (name = "Option" || name = "String" || name = "Vec") then
      false
    else
      id = parent ||
        (match pargs with
         | .some args => check_args parent args is_remote
         | .none => false)
  | .qualifiedPath _ qargs self_type =>
    if is_remote then
      check_type parent self_type is_remote || check_args parent qargs is_remote
    else false
  | .primitive _ => false
  | .tuple vec => check_type_list parent vec is_remote
  | .slice t => check_type parent t is_remote
  | .array t _ => check_type parent t is_remote
  | _ => false

/-- Mirrors node.rs check_args. -/
def check_args (parent : RId) (args : RGenericArgs) (is_remote : Bool) : Bool :=
  match args with
  | .angleBracketed args => check_arg_list parent args is_remote
  | .parenthesized inputs _ => check_type_list parent inputs is_remote

/-- Any angle-bracketed type argument matches (GenericArg::Type arm of
check_args). -/
def check_arg_list (parent : RId) (args : RGenericArgList) (is_remote : Bool) : Bool :=
  match args with
  | .nil => false
  | .cons (.type t) rest =>
    check_type parent t is_remote || check_arg_list parent rest is_remote
  | .cons _ rest => check_arg_list parent rest is_remote

/-- Any tuple member or parenthesized input matches. -/
def check_type_list (parent : RId) (ts : RustTypeList) (is_remote : Bool) : Bool :=
  match ts with
  | .nil => false
  | .cons t rest =>
    check_type parent t is_remote || check_type_list parent rest is_remote

end

/-- Mirrors ItemNode::is_of_type. -/
def ItemNode.is_of_type (n : ItemNode) (id : RId) (is_remote : Bool) : Bool :=
  match n.item.inner with
  | .structField t => check_type id t is_remote
  | .assocType (Option.some (.resolvedPath target)) => target.pathId = id
  | _ => false

/-- Mirrors ItemNode::is_of_local_type. -/
def ItemNode.is_of_local_type (n : ItemNode) (type_node : ItemNode) : Bool :=
  n.is_of_type type_node.item.id false

/-- Mirrors ItemNode::is_of_remote_type. -/
def ItemNode.is_of_remote_type (n : ItemNode) (type_node : SummaryNode) : Bool :=
  n.is_of_type type_node.id true

/-! ### Formats (serde_generate/format.rs and indexed.rs are absent from
src/; shapes are modelled from the spec, section 3) -/

mutual

/-- Modelled from the spec: the language-neutral type descriptor Format of
section 3 and 4.5. -/
inductive Format : Type where
  | typeName (s : String)
  | bool
  | char
  | i8
  | i16
  | i32
  | i64
  | i128
  | u8
  | u16
  | u32
  | u64
  | u128
  | str
  | bytes
  | option (f : Format)
  | seq (f : Format)
  | tuple (ts : FormatList)
deriving DecidableEq, Repr

/-- List of Format, spelled out for mutuality. -/
inductive FormatList : Type where
  | nil
  | cons (head : Format) (tail : FormatList)
deriving DecidableEq, Repr

end

/-- Modelled from the spec: Named of section 3, a pair of a string name
and a value. -/
structure Named (α : Type) where
  name : String
  value : α
deriving DecidableEq, Repr

/-- Modelled from the spec: VariantFormat of section 3. -/
inductive VariantFormat : Type where
  | Unit
  | NewType (f : Format)
  | Tuple (ts : List Format)
  | Struct (fields : List (Named Format))
deriving DecidableEq, Repr

/-- Modelled from the spec: ContainerFormat of section 3.  The Enum payload
is the ordered index-to-variant mapping (a BTreeMap in Rust), modelled as
an association list sorted strictly by key. -/
inductive ContainerFormat : Type where
  | UnitStruct
  | NewTypeStruct (f : Format)
  | TupleStruct (ts : List Format)
  | Struct (fields : List (Named Format))
  | Enum (variants : List (Nat × Named VariantFormat))
deriving DecidableEq, Repr

/-- Modelled from the spec: Indexed of section 3, a value tagged with a
non-negative 32-bit positional index. -/
structure Indexed (α : Type) where
  index : Nat
  value : α
deriving DecidableEq, Repr

/-- The u32 modulus: positional indices are cast `as u32` in formatter.rs. -/
def u32mod (n : Nat) : Nat := n % 4294967296

/-- Mirrors Iterator::position: the first index whose element equals `a`
(by the derived structural equality). -/
def position {α : Type} [DecidableEq α] (a : α) : List α → Option Nat
  | [] => Option.none
  | b :: bs => if b = a then Option.some 0 else (position a bs).map (· + 1)

/-- Modelled from the spec: Indexed values are ordered lexicographically by
(index, value); the sorts in formatter.rs only ever observe the index
component because equal indices cannot occur (section 5).  Insertion sort
keeps the model executable. -/
def sortIndexed {α : Type} (l : List (Indexed α)) : List (Indexed α) :=
  List.insertionSort (fun a b => a.index ≤ b.index) l

/-- Mirrors formatter.rs path_to_string: the path name after the last
double-colon separator, or the whole name. -/
def after_last_sep : List Char → Option (List Char)
  | [] => Option.none
  | c :: rest =>
    match after_last_sep rest with
    | Option.some r => Option.some r
    | Option.none =>
      match c, rest with
      | ':', ':' :: r2 => Option.some r2
      | _, _ => Option.none

def path_to_string (p : RPath) : String :=
  match after_last_sep p.name.data with
  | Option.some r => String.mk r
  | Option.none => p.name

/-- The byte width of isize/usize on the build host (the source calls
std::mem::size_of; 8 on the 64-bit hosts the repository targets). -/
def size_of_isize : Nat := 8

def size_of_usize : Nat := 8

mutual

/-- Mirrors formatter.rs `impl From<&Type> for Format`.  The Rust impl is
total but panics (todo! / panic! / index out of bounds) on unsupported
shapes; those panics are `.error` here. -/
def formatFromType : RustType → Except String Format
  | .resolvedPath (.mk name pid pargs) =>
    match pargs with
    | .some (.angleBracketed args) =>
      if name = "Option" then
        match args with
        | .nil => .error "index out of bounds"
        | .cons (.type t) _ => do pure (Format.option (← formatFromType t))
        | .cons _ _ => .error "todo: non-type generic argument"
      else if name = "String" then pure Format.str
      else if name = "Vec" then
        match args with
        | .nil => .error "index out of bounds"
        | .cons (.type t) _ => do pure (Format.seq (← formatFromType t))
        | .cons _ _ => .error "todo: non-type generic argument"
      else pure (Format.typeName (path_to_string (.mk name pid pargs)))
    | .some (.parenthesized _ _) => .error "todo: parenthesized generic args"
    | .none => pure (Format.typeName (path_to_string (.mk name pid .none)))
  | .dynTrait => .error "todo: dyn trait"
  | .generic _ => .error "todo: generic"
  | .primitive s =>
    if s = "bool" then pure Format.bool
    else if s = "char" then pure Format.char
    else if s = "isize" then
      if size_of_isize = 4 then pure Format.i32
      else if size_of_isize = 8 then pure Format.i64
      else .error "unsupported isize size"
    else if s = "i8" then pure Format.i8
    else if s = "i16" then pure Format.i16
    else if s = "i32" then pure Format.i32
    else if s = "i64" then pure Format.i64
    else if s = "i128" then pure Format.i128
    else if s = "usize" then
      if size_of_usize = 4 then pure Format.u32
      else if size_of_usize = 8 then pure Format.u64
      else .error "unsupported usize size"
    else if s = "u8" then pure Format.u8
    else if s = "u16" then pure Format.u16
    else if s = "u32" then pure Format.u32
    else if s = "u64" then pure Format.u64
    else if s = "u128" then pure Format.u128
    else .error "need to implement primitive"
  | .functionPointer => .error "todo: function pointer"
  | .tuple ts => do pure (Format.tuple (← formatFromTypeList ts))
  | .slice _ => .error "todo: slice"
  | .array _ _ => .error "todo: array"
  | .pat _ => .error "todo: pat"
  | .implTrait => .error "todo: impl trait"
  | .infer => .error "todo: infer"
  | .rawPointer _ _ => .error "todo: raw pointer"
  | .borrowedRef _ _ => .error "todo: borrowed ref"
  | .qualifiedPath name _ _ => pure (Format.typeName name)

/-- Tuple members, translated in order (panics propagate). -/
def formatFromTypeList : RustTypeList → Except String FormatList
  | .nil => pure FormatList.nil
  | .cons t rest => do
    pure (FormatList.cons (← formatFromType t) (← formatFromTypeList rest))

end

/-- Mirrors formatter.rs variant_name. -/
def variant_name (name : String) (variant_attrs enum_attrs : List String) : String :=
  match variant_attrs.findSome? getRename with
  | Option.some rename => rename
  | Option.none =>
    match enum_attrs.findSome? getRenameAll with
    | Option.some rename_all =>
      ((RenameRule.from_str rename_all).getD RenameRule.None).apply_to_variant name
    | Option.none => name

/-- Mirrors formatter.rs field_name. -/
def field_name (name : String) (field_attrs struct_attrs : List String) : String :=
  match field_attrs.findSome? getRename with
  | Option.some rename => rename
  | Option.none =>
    match struct_attrs.findSome? getRenameAll with
    | Option.some rename_all =>
      ((RenameRule.from_str rename_all).getD RenameRule.None).apply_to_field name
    | Option.none => name

/-- The value computed for a struct field inside make_format: the
serde(with) override if present (panicking on anything but serde_bytes),
else the translated declared type. -/
def structFieldFormat (field : ItemNode) (type_ : RustType) : Except String Format :=
  match field.item.attrs.findSome? getSerdeWith with
  | Option.some serde_with =>
    if serde_with = "serde_bytes" then pure Format.bytes
    else Except.error "todo: unknown serde with"
  | Option.none => formatFromType type_

/-- Mirrors formatter.rs make_format.  Returns `.ok none` when the field is
absent from the ordered list or is not a struct field; `.error` models the
todo! panic on an unknown serde(with) value and translation panics. -/
def make_format (field : ItemNode) (all_fields : List ItemNode) :
    Except String (Option (Indexed Format)) :=
  match position field all_fields with
  | Option.none => pure Option.none
  | Option.some index =>
    match field.item.inner with
    | .structField type_ =>
      (structFieldFormat field type_).map
        (fun value => Option.some ⟨u32mod index, value⟩)
    | _ => pure Option.none

/-- Mirrors formatter.rs make_named_format. -/
def make_named_format (field : ItemNode) (all_fields : List ItemNode)
    (struct_ : ItemNode) : Except String (Option (Indexed (Named Format))) :=
  match field.name with
  | Option.some name =>
    (make_format field all_fields).map (fun r =>
      match r with
      | Option.some ⟨index, value⟩ =>
        Option.some
          ⟨index, ⟨field_name name field.item.attrs struct_.item.attrs, value⟩⟩
      | Option.none => Option.none)
  | Option.none => pure Option.none

/-- Mirrors formatter.rs is_plain_variant. -/
def is_plain_variant (variant : ItemNode) : Bool :=
  match variant.item.inner with
  | .variant .plain => true
  | _ => false

/-- Mirrors formatter.rs is_struct_variant. -/
def is_struct_variant (variant : ItemNode) : Bool :=
  match variant.item.inner with
  | .variant (.struct _ _) => true
  | _ => false

/-- Mirrors formatter.rs is_tuple_variant. -/
def is_tuple_variant (variant : ItemNode) : Bool :=
  match variant.item.inner with
  | .variant (.tuple _) => true
  | _ => false

/-- Mirrors formatter.rs make_plain_variant_format. -/
def make_plain_variant_format (variant : ItemNode) (all_variants : List ItemNode)
    (enum_ : ItemNode) : Option (Indexed (Named VariantFormat)) :=
  match position variant all_variants with
  | Option.none => Option.none
  | Option.some index =>
    match variant.item.name, variant.item.inner with
    | Option.some name, .variant _ =>
      Option.some ⟨u32mod index,
        ⟨variant_name name variant.item.attrs enum_.item.attrs, VariantFormat.Unit⟩⟩
    | _, _ => Option.none

/-- Mirrors formatter.rs make_struct_variant_format. -/
def make_struct_variant_format (variant : ItemNode)
    (fields : List (Indexed (Named Format))) (all_variants : List ItemNode)
    (enum_ : ItemNode) : Option (Indexed (Named VariantFormat)) :=
  match position variant all_variants with
  | Option.none => Option.none
  | Option.some index =>
    match variant.item.name, variant.item.inner with
    | Option.some name, .variant _ =>
      let fields := (sortIndexed fields).map (·.value)
      Option.some ⟨u32mod index,
        ⟨variant_name name variant.item.attrs enum_.item.attrs,
          VariantFormat.Struct fields⟩⟩
    | _, _ => Option.none

/-- Mirrors formatter.rs make_tuple_variant_format: the 0 / 1 / many
collapse for tuple variants. -/
def make_tuple_variant_format (variant : ItemNode)
    (fields : List (Indexed Format)) (all_variants : List ItemNode)
    (enum_ : ItemNode) : Option (Indexed (Named VariantFormat)) :=
  match position variant all_variants with
  | Option.none => Option.none
  | Option.some index =>
    match variant.item.name, variant.item.inner with
    | Option.some name, .variant _ =>
      let fields := (sortIndexed fields).map (·.value)
      let value :=
        match fields with
        | [] => VariantFormat.Unit
        | [f] => VariantFormat.NewType f
        | fs => VariantFormat.Tuple fs
      Option.some ⟨u32mod index,
        ⟨variant_name name variant.item.attrs enum_.item.attrs, value⟩⟩
    | _, _ => Option.none

/-- Mirrors formatter.rs make_struct_unit. -/
def make_struct_unit : ContainerFormat := ContainerFormat.UnitStruct

/-- Mirrors formatter.rs make_struct_plain: empty collapses to UnitStruct. -/
def make_struct_plain (fields : List (Indexed (Named Format))) : ContainerFormat :=
  let fields := (sortIndexed fields).map (·.value)
  match fields with
  | [] => ContainerFormat.UnitStruct
  | _ => ContainerFormat.Struct fields

/-- Mirrors formatter.rs make_struct_tuple: the 0 / 1 / many collapse at
container level. -/
def make_struct_tuple (fields : List (Indexed Format)) : ContainerFormat :=
  let fields := (sortIndexed fields).map (·.value)
  match fields with
  | [] => ContainerFormat.UnitStruct
  | [f] => ContainerFormat.NewTypeStruct f
  | fs => ContainerFormat.TupleStruct fs

/-- Insertion into the ordered index-to-variant mapping (BTreeMap::insert
on the key order, replacing an equal key). -/
def btreeInsert {α : Type} (k : Nat) (v : α) : List (Nat × α) → List (Nat × α)
  | [] => [(k, v)]
  | (k', v') :: rest =>
    if k < k' then (k, v) :: (k', v') :: rest
    else if k = k' then (k, v) :: rest
    else (k', v') :: btreeInsert k v rest

/-- Mirrors formatter.rs make_enum: inserts every collected variant format
into the index-keyed mapping. -/
def make_enum (formats : List (Indexed (Named VariantFormat))) : ContainerFormat :=
  ContainerFormat.Enum
    (formats.foldl (fun m f => btreeInsert f.index f.value m) [])

/-! ### The format engine (the ascent program in formatter.rs)

The ascent relations are generated from the input edge relation, a list
of (parent, child) ItemNode pairs.  Relations deduplicate their tuples;
`dedupFirst` keeps the first occurrence, matching insertion order.  Each
relation below is expressed as a function of the edge list; aggregate
`collect` clauses become list collection, and a panic anywhere during rule
evaluation aborts the whole computation (`Except String`). -/

/-- Deduplication keeping first occurrences (relation tuple identity is the
derived structural equality, as in ascent). -/
def dedupFirst {α : Type} [DecidableEq α] (l : List α) : List α :=
  l.foldl (fun acc a => if a ∈ acc then acc else acc ++ [a]) []

/-- The distinct children f with field(x, f), in relation order: the
`collect(f) in field(x, f)` aggregate. -/
def fieldChildren (es : List (ItemNode × ItemNode)) (x : ItemNode) : List ItemNode :=
  dedupFirst ((es.filter (fun p => p.1 = x ∧ p.1.has_field p.2)).map (·.2))

/-- The ordered field list of x: the `fields` relation,
`x.fields(collected candidates)`. -/
def fieldsOf (es : List (ItemNode × ItemNode)) (x : ItemNode) : List ItemNode :=
  x.fields (fieldChildren es x)

/-- The distinct children v with variant(e, v), in relation order. -/
def variantChildren (es : List (ItemNode × ItemNode)) (e : ItemNode) : List ItemNode :=
  dedupFirst ((es.filter (fun p => p.1 = e ∧ p.1.has_variant p.2)).map (·.2))

/-- The ordered variant list of e: the `variants` relation. -/
def variantsOf (es : List (ItemNode × ItemNode)) (e : ItemNode) : List ItemNode :=
  e.variants (variantChildren es e)

/-- Runs a per-child format rule over the collected children, keeping the
produced formats and propagating panics. -/
def collectFormats {α : Type} (F : ItemNode → Except String (Option α)) :
    List ItemNode → Except String (List α)
  | [] => pure []
  | f :: fs =>
    match F f with
    | .error e => .error e
    | .ok Option.none => collectFormats F fs
    | .ok (Option.some a) => do pure (a :: (← collectFormats F fs))

/-- The `format(x, _)` relation for one parent: collected Indexed formats
of x's fields. -/
def formatsOf (es : List (ItemNode × ItemNode)) (x : ItemNode) :
    Except String (List (Indexed Format)) :=
  collectFormats (fun f => make_format f (fieldsOf es x)) (fieldChildren es x)

/-- The `format_named(x, _)` relation for one parent. -/
def namedFormatsOf (es : List (ItemNode × ItemNode)) (x : ItemNode) :
    Except String (List (Indexed (Named Format))) :=
  collectFormats (fun f => make_named_format f (fieldsOf es x) x) (fieldChildren es x)

/-- The `format_variant(e, _)` contribution of one variant v: the
plain/tuple/struct variant rules of formatter.rs, selected by v's kind. -/
def formatVariantOf (es : List (ItemNode × ItemNode)) (e v : ItemNode) :
    Except String (Option (Indexed (Named VariantFormat))) :=
  match v.item.inner with
  | .variant .plain => pure (make_plain_variant_format v (variantsOf es e) e)
  | .variant (.tuple _) =>
    (formatsOf es v).map
      (fun fmts => make_tuple_variant_format v fmts (variantsOf es e) e)
  | .variant (.struct _ _) =>
    (namedFormatsOf es v).map
      (fun fmts => make_struct_variant_format v fmts (variantsOf es e) e)
  | _ => pure Option.none

/-- The collected `format_variant(e, _)` relation for one enum. -/
def variantFormatsOf (es : List (ItemNode × ItemNode)) (e : ItemNode) :
    Except String (List (Indexed (Named VariantFormat))) :=
  collectFormats (formatVariantOf es e) (variantChildren es e)

/-- Whether x occurs as an edge source (`edge(x, _)`). -/
def isSource (es : List (ItemNode × ItemNode)) (x : ItemNode) : Bool :=
  es.any (fun p => p.1 = x)

/-- Whether the `variant(e, _)` relation is inhabited for e. -/
def hasVariantChild (es : List (ItemNode × ItemNode)) (e : ItemNode) : Bool :=
  es.any (fun p => p.1 = e ∧ p.1.has_variant p.2)

/-- The container rules of formatter.rs for one aggregate: the registry
entry (name, ContainerFormat) it contributes, if any.  The four rules are
mutually exclusive since the guards inspect disjoint item kinds. -/
def containerOf (es : List (ItemNode × ItemNode)) (s : ItemNode) :
    Except String (Option (String × ContainerFormat)) :=
  if isSource es s && s.is_struct_plain then
    match s.name with
    | Option.some name => do
      pure (Option.some (name, make_struct_plain (← namedFormatsOf es s)))
    | Option.none => pure Option.none
  else if isSource es s && s.is_struct_unit then
    match s.name with
    | Option.some name => pure (Option.some (name, make_struct_unit))
    | Option.none => pure Option.none
  else if isSource es s && s.is_struct_tuple then
    match s.name with
    | Option.some name => do
      pure (Option.some (name, make_struct_tuple (← formatsOf es s)))
    | Option.none => pure Option.none
  else if hasVariantChild es s then
    match s.name with
    | Option.some name => do
      pure (Option.some (name, make_enum (← variantFormatsOf es s)))
    | Option.none => pure Option.none
  else pure Option.none

/-- The container relation: one entry per distinct edge source that is an
aggregate (the registry emitted by the format engine). -/
def containers (es : List (ItemNode × ItemNode)) :
    Except String (List (String × ContainerFormat)) :=
  collectFormats (containerOf es) (dedupFirst (es.map (·.1)))

/-! ### The reachability engine (parser.rs) -/

/-- Mirrors the Edge label enum of parser.rs. -/
inductive Edge : Type where
  | associatedItem
  | associatedType
  | type
  | field
  | variant
  | traitApp
  | traitEffect
deriving DecidableEq, Repr

/-- Modelled from the spec: data.rs is absent from src/.  Section 3 defines
Node as a pair of an Item and an optional Summary addressed by the item
identifier; parser.rs reads `node.item` as optional and `node.summary` as
an optional module path, so both components are optional here. -/
structure Node where
  item : Option Item
  summary : Option (List String)
deriving DecidableEq, Repr

/-- Mirrors parser.rs are_in_same_module.  (As in node.rs, an empty module
path would make the Rust slice index panic; Nat subtraction totalises the
model on that unreachable case.) -/
def are_in_same_module (app effect : Node) : Bool :=
  match app.summary, effect.summary with
  | Option.some ap, Option.some ep =>
    if ap.length ≠ ep.length then false
    else decide (ap.take (ap.length - 1) = ep.take (ep.length - 1))
  | _, _ => false

/-- The edge relation of the ascent program: a list of labelled node
pairs. -/
abbrev EdgeRel := List (Node × Node × Edge)

/-- The ascent rule `app`: x has an implementation of the App trait. -/
def appRel (E : EdgeRel) (x : Node) : Prop :=
  ∃ app_impl app_trait,
    (app_impl, app_trait, Edge.traitApp) ∈ E ∧ (app_impl, x, Edge.type) ∈ E

/-- The ascent rule `effect`. -/
def effectRel (E : EdgeRel) (x : Node) : Prop :=
  ∃ effect_impl effect_trait,
    (effect_impl, effect_trait, Edge.traitEffect) ∈ E ∧
      (effect_impl, x, Edge.type) ∈ E

/-- The ascent rule `is_effect_of_app`. -/
def is_effect_of_app (E : EdgeRel) (app effect : Node) : Prop :=
  appRel E app ∧ effectRel E effect ∧ are_in_same_module app effect = true

/-- The ascent rule `parent`: the app hierarchy. -/
def parentRel (E : EdgeRel) (p c : Node) : Prop :=
  appRel E p ∧ appRel E c ∧
    ∃ f, (p, f, Edge.field) ∈ E ∧ (f, c, Edge.type) ∈ E

/-- The ascent rule `root`: associated types of parentless App impls, and
effects of parentless apps.  The negation is stratified: `parent` does not
depend on `root`. -/
def rootRel (E : EdgeRel) (t : Node) : Prop :=
  (∃ app_impl app_trait app assoc_item,
    (app_impl, app_trait, Edge.traitApp) ∈ E ∧
    (app_impl, app, Edge.type) ∈ E ∧
    (¬ ∃ p, parentRel E p app) ∧
    (app_impl, assoc_item, Edge.associatedItem) ∈ E ∧
    (assoc_item, t, Edge.associatedType) ∈ E) ∨
  (∃ app, is_effect_of_app E app t ∧ ¬ ∃ p, parentRel E p app)

/-- The ascent rule `output` as a least fixpoint: children of roots via
Variant or Field edges, then closure under Variant, Field and Type
edges. -/
inductive outputRel (E : EdgeRel) : Node → Node → Prop where
  | base (root child : Node) (l : Edge) :
    rootRel E root → (root, child, l) ∈ E →
    (l = Edge.variant ∨ l = Edge.field) → outputRel E root child
  | step (grandparent parent child : Node) (l : Edge) :
    outputRel E grandparent parent → (parent, child, l) ∈ E →
    (l = Edge.variant ∨ l = Edge.field ∨ l = Edge.type) →
    outputRel E parent child

/-- Claim-side reachability, following the words of the spec: from a node
by a first Field-or-Variant edge, then any sequence of Field, Variant or
Type edges. -/
inductive ReachFV (E : EdgeRel) : Node → Node → Prop where
  | first (r c : Node) (l : Edge) :
    (r, c, l) ∈ E → (l = Edge.variant ∨ l = Edge.field) → ReachFV E r c
  | next (r p c : Node) (l : Edge) :
    ReachFV E r p → (p, c, l) ∈ E →
    (l = Edge.variant ∨ l = Edge.field ∨ l = Edge.type) → ReachFV E r c

/-! ### Edge extraction (the scan loop of parser.rs parse) -/

/-- Modelled from the spec: data.rs is absent from src/.  Section 4.1
specifies the index as lookup by identifier over items and summaries; the
Data here carries the item index and the summary module paths, and
node_by_id builds the Node for an identifier known to either. -/
structure Data where
  index : List (RId × Item)
  paths : List (RId × List String)

/-- Modelled from the spec: lookup by identifier; absent identifiers
resolve to no node. -/
def Data.node_by_id (d : Data) (i : RId) : Option Node :=
  match d.index.lookup i, d.paths.lookup i with
  | Option.none, Option.none => Option.none
  | it, su => Option.some ⟨it, su⟩

mutual

/-- Mirrors parser.rs process_args: Type edges for every resolved-path
angle-bracketed type argument, recursing into its own arguments. -/
def process_args (d : Data) (source : Node) (args : RGenericArgs) :
    List (Node × Node × Edge) :=
  match args with
  | .angleBracketed args => process_arg_list d source args
  | .parenthesized _ _ => []

def process_arg_list (d : Data) (source : Node) (args : RGenericArgList) :
    List (Node × Node × Edge) :=
  match args with
  | .nil => []
  | .cons (.type (.resolvedPath (.mk _ pid pargs))) rest =>
    (match d.node_by_id pid with
     | Option.none => []
     | Option.some dest =>
       (source, dest, Edge.type) ::
         (match pargs with
          | .some a => process_args d source a
          | .none => [])) ++ process_arg_list d source rest
  | .cons _ rest => process_arg_list d source rest

end

/-- The edges parse() emits for one item of the index (after the skip
guard).  Mirrors the big match in parser.rs. -/
def itemEdges (d : Data) (source : Node) (item : Item) :
    List (Node × Node × Edge) :=
  match item.inner with
  | .struct kind =>
    (match kind with
     | .unit => []
     | .tuple fields =>
       fields.flatMap (fun f =>
         match f with
         | Option.some i =>
           match d.node_by_id i with
           | Option.some dest => [(source, dest, Edge.field)]
           | Option.none => []
         | Option.none => [])
     | .plain fields _ =>
       fields.flatMap (fun i =>
         match d.node_by_id i with
         | Option.some dest => [(source, dest, Edge.field)]
         | Option.none => []))
  | .structField type_ =>
    (match type_ with
     | .resolvedPath (.mk _ pid pargs) =>
       match d.node_by_id pid with
       | Option.none => []
       | Option.some dest =>
         (source, dest, Edge.type) ::
           (match pargs with
            | .some args => process_args d source args
            | .none => [])
     | _ => [])
  | .enum variants =>
    variants.flatMap (fun i =>
      match d.node_by_id i with
      | Option.some dest => [(source, dest, Edge.variant)]
      | Option.none => [])
  | .variant kind =>
    (match kind with
     | .plain => []
     | .tuple fields =>
       fields.flatMap (fun f =>
         match f with
         | Option.some i =>
           match d.node_by_id i with
           | Option.some dest => [(source, dest, Edge.field)]
           | Option.none => []
         | Option.none => [])
     | .struct fields _ =>
       fields.flatMap (fun i =>
         match d.node_by_id i with
         | Option.some dest => [(source, dest, Edge.field)]
         | Option.none => []))
  | .impl trait_ for_ items =>
    (match for_, trait_ with
     | .resolvedPath (.mk _ for_type_id _), Option.some (.mk trait_name trait_id _) =>
       let trait_edge :=
         if trait_name = "App" then Option.some Edge.traitApp
         else if trait_name = "Effect" then Option.some Edge.traitEffect
         else Option.none
       (match trait_edge with
        | Option.none => []
        | Option.some te =>
          match d.node_by_id trait_id with
          | Option.none => []
          | Option.some trait_dest =>
            (source, trait_dest, te) ::
              (match d.node_by_id for_type_id with
               | Option.none => []
               | Option.some for_dest =>
                 (source, for_dest, Edge.type) ::
                   items.flatMap (fun i =>
                     match d.node_by_id i with
                     | Option.none => []
                     | Option.some dest =>
                       let keep :=
                         match dest.item with
                         | Option.some it =>
                           match it.name with
                           | Option.some n =>
                             n == "Event" || n == "ViewModel" || n == "Capabilities"
                           | Option.none => true
                         | Option.none => true
                       if keep then [(source, dest, Edge.associatedItem)]
                       else [])))
     | _, _ => [])
  | .assocType (Option.some (.resolvedPath target)) =>
    let keep :=
      match item.name with
      | Option.some n => n == "Event" || n == "ViewModel" || n == "Ffi"
      | Option.none => true
    if keep then
      match d.node_by_id target.pathId with
      | Option.some dest => [(source, dest, Edge.associatedType)]
      | Option.none => []
    else []
  | _ => []

/-- Mirrors the edge-building loop of parser.rs parse: every index item is
scanned, items whose attribute list contains the exact string
"#[serde(skip)]" are skipped, the rest contribute their edges. -/
def extractEdges (d : Data) : EdgeRel :=
  d.index.flatMap (fun p =>
    match d.node_by_id p.1 with
    | Option.none => []
    | Option.some source =>
      if "#[serde(skip)]" ∈ p.2.attrs then []
      else itemEdges d source p.2)

/-! ### Spec-side predicate for remote type matching (claim C8) -/

mutual

/-- Follows the words of the spec (section 4.2, is_of_remote_type): the
type carries a resolved path whose id matches the target, transitively
through generic arguments, where the built-in generic paths named Option,
String and Vec do not themselves match the target. -/
def specRemoteTypeMatch (target : RId) (t : RustType) : Bool :=
  match t with
  | .resolvedPath (.mk name pid pargs) =>
    (pid = target && !(name = "Option" || name = "String" || name = "Vec")) ||
      (match pargs with
       | .some args => specRemoteArgsMatch target args
       | .none => false)
  | _ => false

def specRemoteArgsMatch (target : RId) (args : RGenericArgs) : Bool :=
  match args with
  | .angleBracketed l => specRemoteArgListMatch target l
  | .parenthesized _ _ => false

def specRemoteArgListMatch (target : RId) (l : RGenericArgList) : Bool :=
  match l with
  | .nil => false
  | .cons (.type t) rest =>
    specRemoteTypeMatch target t || specRemoteArgListMatch target rest
  | .cons _ rest => specRemoteArgListMatch target rest

end

/-- Follows the words of the spec: the struct-field or associated-type item
carries a matching resolved path in the sense of specRemoteTypeMatch. -/
def specIsOfRemoteType (n : ItemNode) (target : SummaryNode) : Bool :=
  match n.item.inner with
  | .structField t => specRemoteTypeMatch target.id t
  | .assocType (Option.some t) => specRemoteTypeMatch target.id t
  | _ => false

/-- Extracts the produced value of a per-child rule result. -/
def okJoin {α : Type} : Except String (Option α) → Option α
  | .ok (Option.some a) => Option.some a
  | _ => Option.none

/-- Whether a per-child rule result is a successfully produced value. -/
def okSome {α : Type} : Except String (Option α) → Bool
  | .ok (Option.some _) => true
  | _ => false

/-! ### The amended remote-occurrence relation (claim C8)

In the code, a resolved path named Option, String or Vec rejects its whole
subtree in the remote check, and an associated type is matched by its
resolved path id only.  The least relation below captures the field-side
matching as the code performs it. -/

mutual

/-- A resolved path with id `target` occurs in the type, transitively
through generic arguments, tuple members, slice and array elements and
qualified paths, where any path named Option, String or Vec blocks
matching for itself and its entire generic subtree. -/
inductive RemoteOccurs (target : RId) : RustType → Prop where
  | path_self (name : String) (pid : RId) (pargs : ROptArgs) :
    pid = target → name ≠ "Option" → name ≠ "String" → name ≠ "Vec" →
    RemoteOccurs target (.resolvedPath (.mk name pid pargs))
  | path_arg (name : String) (pid : RId) (args : RGenericArgs) :
    name ≠ "Option" → name ≠ "String" → name ≠ "Vec" →
    RemoteOccursArgs target args →
    RemoteOccurs target (.resolvedPath (.mk name pid (.some args)))
  | qual_self (name : String) (qargs : RGenericArgs) (self_type : RustType) :
    RemoteOccurs target self_type →
    RemoteOccurs target (.qualifiedPath name qargs self_type)
  | qual_args (name : String) (qargs : RGenericArgs) (self_type : RustType) :
    RemoteOccursArgs target qargs →
    RemoteOccurs target (.qualifiedPath name qargs self_type)
  | tuple_mem (ts : RustTypeList) :
    RemoteOccursList target ts → RemoteOccurs target (.tuple ts)
  | slice_elem (t : RustType) :
    RemoteOccurs target t → RemoteOccurs target (.slice t)
  | array_elem (t : RustType) (len : String) :
    RemoteOccurs target t → RemoteOccurs target (.array t len)

inductive RemoteOccursArgs (target : RId) : RGenericArgs → Prop where
  | angle (l : RGenericArgList) :
    RemoteOccursArgList target l → RemoteOccursArgs target (.angleBracketed l)
  | paren (inputs : RustTypeList) (output : ROptType) :
    RemoteOccursList target inputs →
    RemoteOccursArgs target (.parenthesized inputs output)

inductive RemoteOccursArgList (target : RId) : RGenericArgList → Prop where
  | head (t : RustType) (rest : RGenericArgList) :
    RemoteOccurs target t → RemoteOccursArgList target (.cons (.type t) rest)
  | tail (a : RGenericArg) (rest : RGenericArgList) :
    RemoteOccursArgList target rest → RemoteOccursArgList target (.cons a rest)

inductive RemoteOccursList (target : RId) : RustTypeList → Prop where
  | head (t : RustType) (rest : RustTypeList) :
    RemoteOccurs target t → RemoteOccursList target (.cons t rest)
  | tail (t : RustType) (rest : RustTypeList) :
    RemoteOccursList target rest → RemoteOccursList target (.cons t rest)

end

/-! ### Concrete fixtures used by the witnesses and counterexamples -/

/-- A bool-typed named field, id 2. -/
def wFa : ItemNode := ⟨⟨⟨2⟩, 0, Option.some "a", [], .structField (.primitive "bool")⟩⟩

/-- An i32-typed named field, id 3. -/
def wFb : ItemNode := ⟨⟨⟨3⟩, 0, Option.some "b", [], .structField (.primitive "i32")⟩⟩

/-- A plain struct S with fields 2 and 3. -/
def wS : ItemNode := ⟨⟨⟨1⟩, 0, Option.some "S", [], .struct (.plain [⟨2⟩, ⟨3⟩] false)⟩⟩

/-- A u8-typed positional field, id 5. -/
def wFc : ItemNode := ⟨⟨⟨5⟩, 0, Option.none, [], .structField (.primitive "u8")⟩⟩

/-- A tuple struct T with the single field 5. -/
def wT : ItemNode := ⟨⟨⟨4⟩, 0, Option.some "T", [], .struct (.tuple [Option.some ⟨5⟩])⟩⟩

/-- A plain enum variant A, id 12. -/
def wVa : ItemNode := ⟨⟨⟨12⟩, 0, Option.some "A", [], .variant .plain⟩⟩

/-- A tuple enum variant B with field 14, id 13. -/
def wVb : ItemNode := ⟨⟨⟨13⟩, 0, Option.some "B", [], .variant (.tuple [Option.some ⟨14⟩])⟩⟩

/-- The u8-typed field of variant B, id 14. -/
def wFd : ItemNode := ⟨⟨⟨14⟩, 0, Option.none, [], .structField (.primitive "u8")⟩⟩

/-- An enum E with variants 12 and 13. -/
def wE : ItemNode := ⟨⟨⟨11⟩, 0, Option.some "E", [], .enum [⟨12⟩, ⟨13⟩]⟩⟩

/-- The formatter edge relation connecting the aggregates above to their
children. -/
def wEdges : List (ItemNode × ItemNode) :=
  [(wS, wFa), (wS, wFb), (wT, wFc), (wE, wVa), (wE, wVb), (wVb, wFd)]

/-- A reference-typed named field, id 31 (an unsupported construct). -/
def wFr : ItemNode :=
  ⟨⟨⟨31⟩, 0, Option.some "r", [], .structField (.borrowedRef false (.primitive "i32"))⟩⟩

/-- A plain struct R whose only field has reference type. -/
def wR : ItemNode := ⟨⟨⟨30⟩, 0, Option.some "R", [], .struct (.plain [⟨31⟩] false)⟩⟩

/-- The edge relation for the reference-typed example. -/
def wEdgesRef : List (ItemNode × ItemNode) := [(wR, wFr)]

/-- Parser nodes for the reachability witness. -/
def pnImpl : Node := ⟨Option.some ⟨⟨41⟩, 0, Option.none, [], .module⟩, Option.none⟩

def pnTrait : Node := ⟨Option.some ⟨⟨42⟩, 0, Option.some "App", [], .trait⟩, Option.none⟩

def pnApp : Node := ⟨Option.some ⟨⟨43⟩, 0, Option.some "MyApp", [], .module⟩, Option.none⟩

def pnAssoc : Node := ⟨Option.some ⟨⟨44⟩, 0, Option.some "Event", [], .assocType Option.none⟩, Option.none⟩

def pnEvent : Node := ⟨Option.some ⟨⟨45⟩, 0, Option.some "MyEvent", [], .module⟩, Option.none⟩

def pnVar : Node := ⟨Option.some ⟨⟨46⟩, 0, Option.some "V", [], .module⟩, Option.none⟩

def pnTy : Node := ⟨Option.some ⟨⟨47⟩, 0, Option.some "Inner", [], .module⟩, Option.none⟩

/-- The labelled edge relation for the reachability witness: an App impl
for MyApp with associated type Event = MyEvent, whose variant V carries a
field of type Inner.  It has no Field-labelled edges, so no parent fact is
derivable. -/
def pEdges : EdgeRel :=
  [(pnImpl, pnTrait, Edge.traitApp), (pnImpl, pnApp, Edge.type),
   (pnImpl, pnAssoc, Edge.associatedItem), (pnAssoc, pnEvent, Edge.associatedType),
   (pnEvent, pnVar, Edge.variant), (pnVar, pnTy, Edge.type)]

/-- An item carrying a whitespace-variant skip attribute, id 61, a plain
struct with field 62. -/
def wSkipItem : Item :=
  ⟨⟨61⟩, 0, Option.some "Sk", ["#[serde( skip )]"], .struct (.plain [⟨62⟩] false)⟩

/-- The field item of the whitespace-skip struct. -/
def wSkipField : Item :=
  ⟨⟨62⟩, 0, Option.some "x", [], .structField (.primitive "bool")⟩

/-- The documentation data for the skip counterexample. -/
def wSkipData : Data := ⟨[(⟨61⟩, wSkipItem), (⟨62⟩, wSkipField)], []⟩

/-- A struct field of type Option with the remote target S as its generic
argument. -/
def wRemField : ItemNode :=
  ⟨⟨⟨71⟩, 0, Option.some "f", [],
    .structField (.resolvedPath (.mk "Option" ⟨72⟩
      (.some (.angleBracketed
        (.cons (.type (.resolvedPath (.mk "S" ⟨73⟩ .none))) .nil)))))⟩⟩

/-- The remote summary for target S, id 73. -/
def wRemSummary : SummaryNode := ⟨⟨73⟩, ⟨1, ["other", "S"]⟩⟩

/-- An associated type resolved to Option with the remote target S inside
its generic arguments. -/
def wRemAssoc : ItemNode :=
  ⟨⟨⟨74⟩, 0, Option.some "Event", [],
    .assocType (Option.some (.resolvedPath (.mk "Option" ⟨72⟩
      (.some (.angleBracketed
        (.cons (.type (.resolvedPath (.mk "S" ⟨73⟩ .none))) .nil))))))⟩⟩

/-- Two nodes with the same identifier but different names. -/
def wIdA : ItemNode := ⟨⟨⟨81⟩, 3, Option.some "First", [], .module⟩⟩

def wIdB : ItemNode := ⟨⟨⟨81⟩, 3, Option.some "Second", [], .module⟩⟩

/-- A tuple variant whose field is named __private_field, id 91/92. -/
def wPrivVariant : ItemNode := ⟨⟨⟨91⟩, 0, Option.some "V", [], .variant (.tuple [Option.some ⟨92⟩])⟩⟩

def wPrivField : ItemNode :=
  ⟨⟨⟨92⟩, 0, Option.some "__private_field", [], .structField (.primitive "u8")⟩⟩

/-- A plain struct declaring field 94, and a field whose source name is
ordinary but which is renamed to __private_field. -/
def wPrivStruct : ItemNode := ⟨⟨⟨93⟩, 0, Option.some "P", [], .struct (.plain [⟨94⟩] false)⟩⟩

def wRenamedPriv : ItemNode :=
  ⟨⟨⟨94⟩, 0, Option.some "ok_name", ["#[serde(rename = \"__private_field\")]"],
    .structField (.primitive "u8")⟩⟩

/-- A field whose source name is __private_field but which is renamed away. -/
def wRenamedAway : ItemNode :=
  ⟨⟨⟨94⟩, 0, Option.some "__private_field", ["#[serde(rename = \"visible\")]"],
    .structField (.primitive "u8")⟩⟩

/-! ## General lemmas -/

theorem position_eq_some_getElem {α : Type} [DecidableEq α] {a : α} {l : List α}
    {i : Nat} (h : position a l = Option.some i) :
    i < l.length ∧ l.get? i = Option.some a := by
  induction l generalizing i with
  | nil => simp [position] at h
  | cons b bs ih =>
    rw [position] at h
    by_cases hb : b = a
    · rw [if_pos hb] at h
      injection h with h
      subst h
      exact ⟨by simp, by simp [hb]⟩
    · rw [if_neg hb] at h
      cases hpos : position a bs with
      | none => rw [hpos] at h; simp at h
      | some j =>
        rw [hpos] at h
        have hj : j + 1 = i := by simpa using h
        subst hj
        obtain ⟨h1, h2⟩ := ih hpos
        exact ⟨by simpa using h1, by simpa using h2⟩

theorem position_mem {α : Type} [DecidableEq α] {a : α} {l : List α} {i : Nat}
    (h : position a l = Option.some i) : a ∈ l := by
  obtain ⟨h1, h2⟩ := position_eq_some_getElem h
  exact List.get?_mem h2

theorem mem_position {α : Type} [DecidableEq α] {a : α} {l : List α}
    (h : a ∈ l) : ∃ i, position a l = Option.some i := by
  induction l with
  | nil => simp at h
  | cons b bs ih =>
    by_cases hb : b = a
    · exact ⟨0, by simp [position, hb]⟩
    · rcases List.mem_cons.mp h with h | h
      · exact absurd h.symm hb
      · obtain ⟨i, hi⟩ := ih h
        exact ⟨i + 1, by simp [position, hb, hi]⟩

theorem position_get {α : Type} [DecidableEq α] {l : List α} (hl : l.Nodup)
    {i : Nat} (h : i < l.length) : position l[i] l = Option.some i := by
  induction l generalizing i with
  | nil => simp at h
  | cons b bs ih =>
    cases i with
    | zero => simp [position]
    | succ j =>
      have hj : j < bs.length := by simpa using h
      have hmem : bs[j] ∈ bs := List.getElem_mem hj
      have hb : b ≠ bs[j] := fun hc => (List.nodup_cons.mp hl).1 (hc ▸ hmem)
      have hpos := ih (List.nodup_cons.mp hl).2 hj
      have hel : (b :: bs)[j + 1] = bs[j] := by simp
      rw [hel, position, if_neg hb, hpos]
      rfl

theorem mem_foldl_dedup {α : Type} [DecidableEq α] (x : α) :
    ∀ (l acc : List α),
      (x ∈ l.foldl (fun acc a => if a ∈ acc then acc else acc ++ [a]) acc ↔
        x ∈ acc ∨ x ∈ l) := by
  intro l
  induction l with
  | nil => intro acc; simp
  | cons a as ih =>
    intro acc
    rw [List.foldl_cons, ih]
    by_cases ha : a ∈ acc
    · rw [if_pos ha]
      constructor
      · rintro (h | h)
        · exact Or.inl h
        · exact Or.inr (List.mem_cons_of_mem a h)
      · rintro (h | h)
        · exact Or.inl h
        · rcases List.mem_cons.mp h with rfl | h
          · exact Or.inl ha
          · exact Or.inr h
    · rw [if_neg ha]
      simp only [List.mem_append, List.mem_singleton, List.mem_cons]
      tauto

theorem nodup_foldl_dedup {α : Type} [DecidableEq α] :
    ∀ (l acc : List α), acc.Nodup →
      (l.foldl (fun acc a => if a ∈ acc then acc else acc ++ [a]) acc).Nodup := by
  intro l
  induction l with
  | nil => intro acc h; simpa using h
  | cons a as ih =>
    intro acc h
    rw [List.foldl_cons]
    refine ih _ ?_
    by_cases ha : a ∈ acc
    · rwa [if_pos ha]
    · rw [if_neg ha]
      rw [List.nodup_append]
      exact ⟨h, List.nodup_singleton a, by simpa using ha⟩

theorem mem_dedupFirst {α : Type} [DecidableEq α] {a : α} {l : List α} :
    a ∈ dedupFirst l ↔ a ∈ l := by
  unfold dedupFirst
  rw [mem_foldl_dedup]
  simp

theorem nodup_dedupFirst {α : Type} [DecidableEq α] (l : List α) :
    (dedupFirst l).Nodup :=
  nodup_foldl_dedup l [] List.nodup_nil

theorem nodup_filterMap_find {ds : List RId} {cs : List ItemNode}
    (hds : ds.Nodup) :
    (ds.filterMap (fun i => cs.find? (fun f => !f.should_skip && f.item.id = i))).Nodup := by
  refine List.Nodup.filterMap ?_ hds
  intro a a' b hb hb'
  have ha := List.find?_some (Option.mem_def.mp hb)
  have ha' := List.find?_some (Option.mem_def.mp hb')
  simp only [Bool.and_eq_true, decide_eq_true_eq] at ha ha'
  rw [← ha.2, ← ha'.2]

theorem mem_filterMap_find {ds : List RId} {cs : List ItemNode} {f : ItemNode}
    (h : f ∈ ds.filterMap (fun i => cs.find? (fun g => !g.should_skip && g.item.id = i))) :
    f ∈ cs := by
  obtain ⟨i, _, hf⟩ := List.mem_filterMap.mp h
  exact List.mem_of_find?_eq_some hf

theorem fields_nodup {x : ItemNode} {cs : List ItemNode}
    (h : (declaredFieldIds x).Nodup) : (x.fields cs).Nodup :=
  nodup_filterMap_find h

theorem mem_fields {x : ItemNode} {cs : List ItemNode} {f : ItemNode}
    (h : f ∈ x.fields cs) : f ∈ cs :=
  mem_filterMap_find h

theorem variants_nodup {x : ItemNode} {cs : List ItemNode}
    (h : (declaredVariantIds x).Nodup) : (x.variants cs).Nodup :=
  nodup_filterMap_find h

theorem mem_variants {x : ItemNode} {cs : List ItemNode} {v : ItemNode}
    (h : v ∈ x.variants cs) : v ∈ cs :=
  mem_filterMap_find h

theorem okSome_iff {α : Type} {r : Except String (Option α)} :
    okSome r = true ↔ ∃ a, okJoin r = Option.some a := by
  cases r with
  | error e => simp [okSome, okJoin]
  | ok o => cases o <;> simp [okSome, okJoin]

theorem okJoin_eq_some {α : Type} {r : Except String (Option α)} {a : α}
    (h : okJoin r = Option.some a) : r = .ok (Option.some a) := by
  cases r with
  | error e => simp [okJoin] at h
  | ok o =>
    cases o with
    | none => simp [okJoin] at h
    | some b => simp [okJoin] at h; rw [h]

theorem okSome_isOk {α : Type} {r : Except String (Option α)}
    (h : okSome r = true) : r.isOk = true := by
  cases r with
  | error e => simp [okSome] at h
  | ok o => rfl

theorem collectFormats_ok {α : Type} {F : ItemNode → Except String (Option α)} :
    ∀ {cs : List ItemNode}, (∀ f ∈ cs, (F f).isOk = true) →
      collectFormats F cs = .ok (cs.filterMap (fun f => okJoin (F f))) := by
  intro cs
  induction cs with
  | nil => intro _; rfl
  | cons f fs ih =>
    intro h
    have hf := h f (List.mem_cons_self f fs)
    have hfs := ih (fun g hg => h g (List.mem_cons_of_mem f hg))
    cases hF : F f with
    | error e => rw [hF] at hf; simp [Except.isOk, Except.toBool] at hf
    | ok o =>
      cases o with
      | none =>
        simp only [collectFormats, hF, List.filterMap_cons, okJoin]
        exact hfs
      | some a =>
        simp only [collectFormats, hF, List.filterMap_cons, okJoin, hfs]
        rfl

theorem filterMap_okJoin_index {β : Type}
    {F : ItemNode → Except String (Option (Indexed β))}
    {cs ordered : List ItemNode}
    (hsome : ∀ f ∈ ordered, okSome (F f) = true)
    (hidx : ∀ f ∈ cs, ∀ a, okJoin (F f) = Option.some a →
      position f ordered = Option.some a.index) :
    (cs.filterMap (fun f => okJoin (F f))).map (·.index) =
      cs.filterMap (fun f => position f ordered) := by
  rw [List.map_filterMap]
  refine List.filterMap_congr ?_
  intro f hf
  cases hoj : okJoin (F f) with
  | none =>
    cases hpos : position f ordered with
    | none => simp
    | some i =>
      obtain ⟨a, ha⟩ := okSome_iff.mp (hsome f (position_mem hpos))
      rw [ha] at hoj
      exact absurd hoj (by simp)
  | some a =>
    rw [hidx f hf a hoj]
    simp

theorem count_filterMap_option {α β : Type} [DecidableEq α] [DecidableEq β]
    (g : α → Option β) (l : List α) (b : β) :
    (l.filterMap g).count b = l.countP (fun a => g a == Option.some b) := by
  induction l with
  | nil => rfl
  | cons a as ih =>
    cases hg : g a with
    | none =>
      rw [List.filterMap_cons_none hg, List.countP_cons, ih, hg]
      simp
    | some c =>
      rw [List.filterMap_cons_some hg, List.count_cons, List.countP_cons, ih, hg]
      by_cases hc : c = b <;> simp [hc]

theorem filterMap_position_perm {α : Type} [DecidableEq α]
    {cs ordered : List α} (hcs : cs.Nodup) (hord : ordered.Nodup)
    (hsub : ∀ f ∈ ordered, f ∈ cs) :
    (cs.filterMap (fun f => position f ordered)).Perm
      (List.range ordered.length) := by
  rw [List.perm_iff_count]
  intro n
  rw [count_filterMap_option]
  by_cases hn : n < ordered.length
  · have hmem : ordered[n] ∈ ordered := List.getElem_mem hn
    have hcount : cs.countP (fun f => position f ordered == Option.some n) =
        cs.countP (fun f => f == ordered[n]) := by
      refine List.countP_congr ?_
      intro f _
      by_cases hfeq : f = ordered[n]
      · subst hfeq
        simp [position_get hord hn]
      · have hne : position f ordered ≠ Option.some n := by
          intro hpos
          have h2 := (position_eq_some_getElem hpos).2
          have hgn : ordered.get? n = Option.some ordered[n] := by
            simp [List.get?_eq_getElem?, hn]
          rw [hgn] at h2
          exact hfeq (by simpa using h2.symm)
        rw [beq_eq_false_iff_ne.mpr hne, beq_eq_false_iff_ne.mpr hfeq]
    rw [hcount]
    have h1 : cs.countP (fun f => f == ordered[n]) = cs.count ordered[n] := rfl
    rw [h1, List.count_eq_one_of_mem hcs (hsub _ hmem),
      List.count_eq_one_of_mem (List.nodup_range _) (List.mem_range.mpr hn)]
  · have h0 : cs.countP (fun f => position f ordered == Option.some n) = 0 := by
      rw [List.countP_eq_zero]
      intro f _
      simp only [beq_iff_eq]
      intro hpos
      exact hn (position_eq_some_getElem hpos).1
    rw [h0]
    rw [Eq.comm, List.count_eq_zero]
    intro hmem
    exact hn (List.mem_range.mp hmem)

theorem sortIndexed_sorted {β : Type} (l : List (Indexed β)) :
    List.Sorted (fun a b : Indexed β => a.index ≤ b.index) (sortIndexed l) := by
  haveI : IsTotal (Indexed β) (fun a b => a.index ≤ b.index) :=
    ⟨fun a b => Nat.le_total a.index b.index⟩
  haveI : IsTrans (Indexed β) (fun a b => a.index ≤ b.index) :=
    ⟨fun _ _ _ hab hbc => Nat.le_trans hab hbc⟩
  exact List.sorted_insertionSort _ l

theorem sortIndexed_perm {β : Type} (l : List (Indexed β)) :
    (sortIndexed l).Perm l :=
  List.perm_insertionSort _ l

/-- The workhorse for ordering claims: if a per-child rule produces a
format exactly for the children that appear in the ordered list, tagged
with their position there, then the collected formats sort into strictly
ascending positions covering exactly 0..k-1. -/
theorem collect_sorted_range {β : Type}
    (F : ItemNode → Except String (Option (Indexed β)))
    (cs ordered : List ItemNode)
    (hcs : cs.Nodup) (hord : ordered.Nodup)
    (hsub : ∀ f ∈ ordered, f ∈ cs)
    (hok : ∀ f ∈ cs, (F f).isOk = true)
    (hsome : ∀ f ∈ ordered, okSome (F f) = true)
    (hidx : ∀ f ∈ cs, ∀ a, okJoin (F f) = Option.some a →
      position f ordered = Option.some a.index) :
    ∃ L, collectFormats F cs = .ok L ∧ L.length = ordered.length ∧
      (L.map (·.index)).Perm (List.range ordered.length) ∧
      (sortIndexed L).map (·.index) = List.range ordered.length := by
  refine ⟨cs.filterMap (fun f => okJoin (F f)), collectFormats_ok hok, ?_⟩
  have hmapeq := filterMap_okJoin_index hsome hidx
  have hperm : ((cs.filterMap (fun f => okJoin (F f))).map (·.index)).Perm
      (List.range ordered.length) := by
    rw [hmapeq]
    exact filterMap_position_perm hcs hord hsub
  have hlen : (cs.filterMap (fun f => okJoin (F f))).length = ordered.length := by
    have := hperm.length_eq
    simpa using this
  refine ⟨hlen, hperm, ?_⟩
  have hperm2 : ((sortIndexed (cs.filterMap (fun f => okJoin (F f)))).map
      (·.index)).Perm (List.range ordered.length) :=
    ((sortIndexed_perm _).map (·.index)).trans hperm
  have hsorted : List.Sorted (· ≤ ·)
      ((sortIndexed (cs.filterMap (fun f => okJoin (F f)))).map (·.index)) :=
    List.Pairwise.map _ (fun _ _ hab => hab) (sortIndexed_sorted _)
  exact List.eq_of_perm_of_sorted hperm2 hsorted (List.sorted_le_range _)

/-! ### BTreeMap key lemmas (for make_enum) -/

theorem btreeInsert_keys_perm {α : Type} (k : Nat) (v : α) :
    ∀ (m : List (Nat × α)), k ∉ m.map Prod.fst →
      ((btreeInsert k v m).map Prod.fst).Perm (k :: m.map Prod.fst) := by
  intro m
  induction m with
  | nil => intro _; simp [btreeInsert]
  | cons p rest ih =>
    intro hk
    obtain ⟨k', v'⟩ := p
    simp only [List.map_cons, List.mem_cons] at hk
    push_neg at hk
    rw [btreeInsert]
    by_cases h1 : k < k'
    · simp [h1]
    · rw [if_neg h1, if_neg hk.1]
      have hrest := ih hk.2
      have h2 : ((k', v') :: btreeInsert k v rest).map Prod.fst
          = k' :: (btreeInsert k v rest).map Prod.fst := by simp
      rw [h2]
      exact List.Perm.trans (hrest.cons k') (List.Perm.swap k k' _)

theorem btreeInsert_keys_sorted {α : Type} (k : Nat) (v : α) :
    ∀ (m : List (Nat × α)), k ∉ m.map Prod.fst →
      List.Sorted (· < ·) (m.map Prod.fst) →
      List.Sorted (· < ·) ((btreeInsert k v m).map Prod.fst) := by
  intro m
  induction m with
  | nil => intro _ _; simp [btreeInsert]
  | cons p rest ih =>
    intro hk hs
    obtain ⟨k', v'⟩ := p
    simp only [List.map_cons, List.mem_cons] at hk
    push_neg at hk
    simp only [List.map_cons, List.sorted_cons] at hs
    rw [btreeInsert]
    by_cases h1 : k < k'
    · rw [if_pos h1]
      simp only [List.map_cons, List.sorted_cons]
      refine ⟨?_, hs⟩
      intro b hb
      rcases List.mem_cons.mp hb with hb | hb
      · exact hb ▸ h1
      · exact Nat.lt_trans h1 (hs.1 b hb)
    · rw [if_neg h1, if_neg hk.1]
      simp only [List.map_cons, List.sorted_cons]
      have hklt : k' < k := by omega
      refine ⟨?_, ih hk.2 hs.2⟩
      intro b hb
      have hb2 := (btreeInsert_keys_perm k v rest hk.2).mem_iff.mp hb
      rcases List.mem_cons.mp hb2 with hb2 | hb2
      · exact hb2 ▸ hklt
      · exact hs.1 b hb2

theorem btreeFold_keys {α : Type} :
    ∀ (L : List (Indexed α)) (acc : List (Nat × α)),
      (L.map (·.index)).Nodup →
      (∀ k ∈ L.map (·.index), k ∉ acc.map Prod.fst) →
      List.Sorted (· < ·) (acc.map Prod.fst) →
      List.Sorted (· < ·)
        ((L.foldl (fun m f => btreeInsert f.index f.value m) acc).map Prod.fst) ∧
      ((L.foldl (fun m f => btreeInsert f.index f.value m) acc).map
        Prod.fst).Perm (acc.map Prod.fst ++ L.map (·.index)) := by
  intro L
  induction L with
  | nil => intro acc _ _ hs; exact ⟨hs, by simp⟩
  | cons f fs ih =>
    intro acc hnd hdisj hs
    simp only [List.map_cons, List.nodup_cons] at hnd
    have hfk : f.index ∉ acc.map Prod.fst :=
      hdisj f.index (by simp)
    have hperm1 := btreeInsert_keys_perm f.index f.value acc hfk
    have hs1 := btreeInsert_keys_sorted f.index f.value acc hfk hs
    have hdisj1 : ∀ k ∈ fs.map (·.index), k ∉ (btreeInsert f.index f.value acc).map Prod.fst := by
      intro k hk hmem
      have := hperm1.mem_iff.mp hmem
      rcases List.mem_cons.mp this with hcase | hcase
      · exact hnd.1 (hcase ▸ hk)
      · exact hdisj k (List.mem_cons_of_mem _ hk) hcase
    obtain ⟨hsf, hpf⟩ := ih (btreeInsert f.index f.value acc) hnd.2 hdisj1 hs1
    refine ⟨by simpa using hsf, ?_⟩
    simp only [List.foldl_cons, List.map_cons]
    refine hpf.trans ?_
    refine List.Perm.trans (hperm1.append_right _) ?_
    simp only [List.cons_append]
    exact List.perm_middle.symm

/-- The keys of the enum mapping: if the collected indices are a
permutation of 0..k-1, the BTreeMap iterates them in exactly that order. -/
theorem make_enum_keys {L : List (Indexed (Named VariantFormat))} {m : Nat}
    (h : (L.map (·.index)).Perm (List.range m)) :
    ∃ entries, make_enum L = ContainerFormat.Enum entries ∧
      entries.map Prod.fst = List.range m := by
  have hnd : (L.map (·.index)).Nodup := h.symm.nodup_iff.mp (List.nodup_range m)
  obtain ⟨hs, hp⟩ := btreeFold_keys L [] hnd (by simp) (by simp)
  refine ⟨_, rfl, ?_⟩
  have hp2 : ((L.foldl (fun m f => btreeInsert f.index f.value m) []).map
      Prod.fst).Perm (List.range m) := by
    refine List.Perm.trans hp ?_
    simpa using h
  exact List.eq_of_perm_of_sorted hp2 (hs.le_of_lt) (List.sorted_le_range _)

theorem u32mod_small {n : Nat} (h : n < 4294967296) : u32mod n = n :=
  Nat.mod_eq_of_lt h

theorem make_format_position_none {f : ItemNode} {all : List ItemNode}
    (h : position f all = Option.none) :
    make_format f all = .ok Option.none := by
  unfold make_format
  rw [h]
  rfl

theorem make_named_format_position_none {f : ItemNode} {all : List ItemNode}
    {s : ItemNode} (h : position f all = Option.none) :
    make_named_format f all s = .ok Option.none := by
  unfold make_named_format
  cases hnm : f.name with
  | none => rfl
  | some nm =>
    rw [make_format_position_none h]
    rfl

theorem make_format_ok_some {f : ItemNode} {all : List ItemNode}
    {b : Indexed Format} (h : make_format f all = .ok (Option.some b)) :
    ∃ i, position f all = Option.some i ∧ b.index = u32mod i := by
  unfold make_format at h
  cases hpos : position f all with
  | none => rw [hpos] at h; exact absurd h (by simp [pure, Except.pure])
  | some i =>
    rw [hpos] at h
    refine ⟨i, rfl, ?_⟩
    cases hinner : f.item.inner <;> rw [hinner] at h <;>
      simp only [pure, Except.pure, Except.ok.injEq] at h
    case structField t =>
      cases hX : structFieldFormat f t with
      | error e =>
        rw [hX] at h
        exact absurd h (by simp [Except.map])
      | ok v =>
        rw [hX] at h
        simp only [Except.map, Except.ok.injEq, Option.some.injEq] at h
        rw [← h]
    all_goals exact absurd h (by simp)

theorem make_named_format_ok_some {f : ItemNode} {all : List ItemNode}
    {s : ItemNode} {a : Indexed (Named Format)}
    (h : make_named_format f all s = .ok (Option.some a)) :
    ∃ i, position f all = Option.some i ∧ a.index = u32mod i := by
  unfold make_named_format at h
  cases hnm : f.name with
  | none =>
    rw [hnm] at h
    exact absurd h (by simp [pure, Except.pure])
  | some nm =>
    rw [hnm] at h
    cases hmf : make_format f all with
    | error e =>
      rw [hmf] at h
      exact absurd h (by simp [Except.map])
    | ok r =>
      rw [hmf] at h
      cases r with
      | none =>
        simp only [Except.map, Except.ok.injEq] at h
        exact absurd h (by simp)
      | some b =>
        obtain ⟨idx, val⟩ := b
        simp only [Except.map, Except.ok.injEq, Option.some.injEq] at h
        obtain ⟨i, hpos, hidx⟩ := make_format_ok_some hmf
        exact ⟨i, hpos, by rw [← h]; exact hidx⟩

theorem make_plain_variant_format_position_none {v : ItemNode}
    {all : List ItemNode} {e : ItemNode}
    (h : position v all = Option.none) :
    make_plain_variant_format v all e = Option.none := by
  unfold make_plain_variant_format
  rw [h]

theorem make_tuple_variant_format_position_none {v : ItemNode}
    {fmts : List (Indexed Format)} {all : List ItemNode} {e : ItemNode}
    (h : position v all = Option.none) :
    make_tuple_variant_format v fmts all e = Option.none := by
  unfold make_tuple_variant_format
  rw [h]

theorem make_struct_variant_format_position_none {v : ItemNode}
    {fmts : List (Indexed (Named Format))} {all : List ItemNode} {e : ItemNode}
    (h : position v all = Option.none) :
    make_struct_variant_format v fmts all e = Option.none := by
  unfold make_struct_variant_format
  rw [h]

theorem make_plain_variant_format_some {v : ItemNode} {all : List ItemNode}
    {e : ItemNode} {a : Indexed (Named VariantFormat)}
    (h : make_plain_variant_format v all e = Option.some a) :
    ∃ i, position v all = Option.some i ∧ a.index = u32mod i := by
  unfold make_plain_variant_format at h
  cases hpos : position v all with
  | none => rw [hpos] at h; exact absurd h (by simp)
  | some i =>
    rw [hpos] at h
    refine ⟨i, rfl, ?_⟩
    cases hnm : v.item.name <;> rw [hnm] at h <;>
      cases hin : v.item.inner <;> rw [hin] at h <;> simp at h
    rw [← h]

theorem make_tuple_variant_format_some {v : ItemNode}
    {fmts : List (Indexed Format)} {all : List ItemNode} {e : ItemNode}
    {a : Indexed (Named VariantFormat)}
    (h : make_tuple_variant_format v fmts all e = Option.some a) :
    ∃ i, position v all = Option.some i ∧ a.index = u32mod i := by
  unfold make_tuple_variant_format at h
  cases hpos : position v all with
  | none => rw [hpos] at h; exact absurd h (by simp)
  | some i =>
    rw [hpos] at h
    refine ⟨i, rfl, ?_⟩
    cases hnm : v.item.name <;> rw [hnm] at h <;>
      cases hin : v.item.inner <;> rw [hin] at h <;> simp at h
    rw [← h]

theorem make_struct_variant_format_some {v : ItemNode}
    {fmts : List (Indexed (Named Format))} {all : List ItemNode} {e : ItemNode}
    {a : Indexed (Named VariantFormat)}
    (h : make_struct_variant_format v fmts all e = Option.some a) :
    ∃ i, position v all = Option.some i ∧ a.index = u32mod i := by
  unfold make_struct_variant_format at h
  cases hpos : position v all with
  | none => rw [hpos] at h; exact absurd h (by simp)
  | some i =>
    rw [hpos] at h
    refine ⟨i, rfl, ?_⟩
    cases hnm : v.item.name <;> rw [hnm] at h <;>
      cases hin : v.item.inner <;> rw [hin] at h <;> simp at h
    rw [← h]

theorem formatVariantOf_okJoin_some {es : List (ItemNode × ItemNode)}
    {e v : ItemNode} {a : Indexed (Named VariantFormat)}
    (h : okJoin (formatVariantOf es e v) = Option.some a) :
    ∃ i, position v (variantsOf es e) = Option.some i ∧ a.index = u32mod i := by
  have h2 := okJoin_eq_some h
  unfold formatVariantOf at h2
  cases hin : v.item.inner <;> rw [hin] at h2
  case variant kind =>
    cases kind with
    | plain =>
      simp only [pure, Except.pure, Except.ok.injEq] at h2
      exact make_plain_variant_format_some h2
    | tuple fs =>
      cases hfm : formatsOf es v with
      | error err => rw [hfm] at h2; exact absurd h2 (by simp [Except.map])
      | ok fmts =>
        rw [hfm] at h2
        simp only [Except.map, Except.ok.injEq] at h2
        exact make_tuple_variant_format_some h2
    | struct fs hsf =>
      cases hfm : namedFormatsOf es v with
      | error err => rw [hfm] at h2; exact absurd h2 (by simp [Except.map])
      | ok fmts =>
        rw [hfm] at h2
        simp only [Except.map, Except.ok.injEq] at h2
        exact make_struct_variant_format_some h2
  all_goals exact absurd h2 (by simp [pure, Except.pure])

theorem formatVariantOf_isOk_okJoin_none {es : List (ItemNode × ItemNode)}
    {e v : ItemNode} (hok : (formatVariantOf es e v).isOk = true)
    (hpos : position v (variantsOf es e) = Option.none) :
    okJoin (formatVariantOf es e v) = Option.none := by
  cases hin : v.item.inner
  case variant kind =>
    cases kind with
    | plain =>
      have heq : formatVariantOf es e v =
          pure (make_plain_variant_format v (variantsOf es e) e) := by
        unfold formatVariantOf; rw [hin]
      rw [heq, make_plain_variant_format_position_none hpos]
      rfl
    | tuple fs =>
      have heq : formatVariantOf es e v = (formatsOf es v).map
          (fun fmts => make_tuple_variant_format v fmts (variantsOf es e) e) := by
        unfold formatVariantOf; rw [hin]
      rw [heq] at hok ⊢
      cases hfm : formatsOf es v with
      | error err =>
        rw [hfm] at hok
        simp [Except.map, Except.isOk, Except.toBool] at hok
      | ok fmts =>
        simp only [Except.map]
        rw [make_tuple_variant_format_position_none hpos]
        rfl
    | struct fs hsf =>
      have heq : formatVariantOf es e v = (namedFormatsOf es v).map
          (fun fmts => make_struct_variant_format v fmts (variantsOf es e) e) := by
        unfold formatVariantOf; rw [hin]
      rw [heq] at hok ⊢
      cases hfm : namedFormatsOf es v with
      | error err =>
        rw [hfm] at hok
        simp [Except.map, Except.isOk, Except.toBool] at hok
      | ok fmts =>
        simp only [Except.map]
        rw [make_struct_variant_format_position_none hpos]
        rfl
  all_goals {
    have heq : formatVariantOf es e v = pure Option.none := by
      unfold formatVariantOf; rw [hin]
    rw [heq]
    rfl
  }

/-- Wrapper for collect_sorted_range with the index inversion stated in the
u32-cast form that the make functions produce. -/
theorem collect_sorted_range_of_make {β : Type}
    (F : ItemNode → Except String (Option (Indexed β)))
    (cs ordered : List ItemNode)
    (hcs : cs.Nodup) (hord : ordered.Nodup)
    (hsub : ∀ f ∈ ordered, f ∈ cs)
    (hlen : ordered.length ≤ 4294967296)
    (hposnone : ∀ f ∈ cs, position f ordered = Option.none →
      (F f).isOk = true ∧ okJoin (F f) = Option.none)
    (hfOk : ∀ f ∈ ordered, okSome (F f) = true)
    (hinv : ∀ f ∈ cs, ∀ a, okJoin (F f) = Option.some a →
      ∃ i, position f ordered = Option.some i ∧ a.index = u32mod i) :
    ∃ L, collectFormats F cs = .ok L ∧ L.length = ordered.length ∧
      (L.map (·.index)).Perm (List.range ordered.length) ∧
      (sortIndexed L).map (·.index) = List.range ordered.length := by
  apply collect_sorted_range F cs ordered hcs hord hsub
  · intro f hf
    cases hpos : position f ordered with
    | none => exact (hposnone f hf hpos).1
    | some i => exact okSome_isOk (hfOk f (position_mem hpos))
  · exact hfOk
  · intro f hf a hoj
    obtain ⟨i, hpos, hidx⟩ := hinv f hf a hoj
    have hlt := (position_eq_some_getElem hpos).1
    rw [hpos, hidx, u32mod_small (lt_of_lt_of_le hlt hlen)]

/-- The collected named formats of a plain-struct parent sort into indices
exactly 0..k-1, provided its declared field ids are distinct and every
ordered field successfully produces a named format. -/
theorem namedFormats_sorted_range {es : List (ItemNode × ItemNode)}
    {s : ItemNode} (hids : (declaredFieldIds s).Nodup)
    (hlen : (fieldsOf es s).length ≤ 4294967296)
    (hfOk : ∀ f ∈ fieldsOf es s,
      okSome (make_named_format f (fieldsOf es s) s) = true) :
    ∃ L, namedFormatsOf es s = .ok L ∧ L.length = (fieldsOf es s).length ∧
      (L.map (·.index)).Perm (List.range (fieldsOf es s).length) ∧
      (sortIndexed L).map (·.index) = List.range (fieldsOf es s).length := by
  refine collect_sorted_range_of_make
    (fun f => make_named_format f (fieldsOf es s) s)
    (fieldChildren es s) (fieldsOf es s)
    (nodup_dedupFirst _) (fields_nodup hids) (fun f hf => mem_fields hf) hlen
    ?_ hfOk ?_
  · intro f _ hpos
    show (make_named_format f (fieldsOf es s) s).isOk = true ∧
      okJoin (make_named_format f (fieldsOf es s) s) = Option.none
    rw [make_named_format_position_none hpos]
    exact ⟨rfl, rfl⟩
  · intro f _ a hoj
    exact make_named_format_ok_some (okJoin_eq_some hoj)

/-- As above for the positional formats of a tuple-struct parent. -/
theorem formats_sorted_range {es : List (ItemNode × ItemNode)}
    {s : ItemNode} (hids : (declaredFieldIds s).Nodup)
    (hlen : (fieldsOf es s).length ≤ 4294967296)
    (hfOk : ∀ f ∈ fieldsOf es s,
      okSome (make_format f (fieldsOf es s)) = true) :
    ∃ L, formatsOf es s = .ok L ∧ L.length = (fieldsOf es s).length ∧
      (L.map (·.index)).Perm (List.range (fieldsOf es s).length) ∧
      (sortIndexed L).map (·.index) = List.range (fieldsOf es s).length := by
  refine collect_sorted_range_of_make
    (fun f => make_format f (fieldsOf es s))
    (fieldChildren es s) (fieldsOf es s)
    (nodup_dedupFirst _) (fields_nodup hids) (fun f hf => mem_fields hf) hlen
    ?_ hfOk ?_
  · intro f _ hpos
    show (make_format f (fieldsOf es s)).isOk = true ∧
      okJoin (make_format f (fieldsOf es s)) = Option.none
    rw [make_format_position_none hpos]
    exact ⟨rfl, rfl⟩
  · intro f _ a hoj
    exact make_format_ok_some (okJoin_eq_some hoj)

/-- As above for the per-variant formats of an enum parent. -/
theorem variantFormats_sorted_range {es : List (ItemNode × ItemNode)}
    {e : ItemNode} (hids : (declaredVariantIds e).Nodup)
    (hlen : (variantsOf es e).length ≤ 4294967296)
    (hallOk : ∀ v ∈ variantChildren es e, (formatVariantOf es e v).isOk = true)
    (hfOk : ∀ v ∈ variantsOf es e, okSome (formatVariantOf es e v) = true) :
    ∃ L, variantFormatsOf es e = .ok L ∧ L.length = (variantsOf es e).length ∧
      (L.map (·.index)).Perm (List.range (variantsOf es e).length) ∧
      (sortIndexed L).map (·.index) = List.range (variantsOf es e).length := by
  refine collect_sorted_range_of_make
    (formatVariantOf es e)
    (variantChildren es e) (variantsOf es e)
    (nodup_dedupFirst _) (variants_nodup hids) (fun v hv => mem_variants hv) hlen
    ?_ hfOk ?_
  · intro v hv hpos
    exact ⟨hallOk v hv, formatVariantOf_isOk_okJoin_none (hallOk v hv) hpos⟩
  · intro v _ a hoj
    exact formatVariantOf_okJoin_some hoj

theorem is_struct_plain_not_other {s : ItemNode} (h : s.is_struct_plain = true) :
    s.is_struct_unit = false ∧ s.is_struct_tuple = false := by
  unfold ItemNode.is_struct_plain at h
  unfold ItemNode.is_struct_unit ItemNode.is_struct_tuple
  cases hin : s.item.inner <;> rw [hin] at h <;> try simp_all
  case struct kind => cases kind <;> simp_all

theorem is_struct_tuple_not_other {s : ItemNode} (h : s.is_struct_tuple = true) :
    s.is_struct_plain = false ∧ s.is_struct_unit = false := by
  unfold ItemNode.is_struct_tuple at h
  unfold ItemNode.is_struct_plain ItemNode.is_struct_unit
  cases hin : s.item.inner <;> rw [hin] at h <;> try simp_all
  case struct kind => cases kind <;> simp_all

theorem hasVariantChild_is_enum {es : List (ItemNode × ItemNode)} {e : ItemNode}
    (h : hasVariantChild es e = true) :
    e.is_struct_plain = false ∧ e.is_struct_unit = false ∧
      e.is_struct_tuple = false := by
  unfold hasVariantChild at h
  rw [List.any_eq_true] at h
  obtain ⟨p, _, hp⟩ := h
  simp only [decide_eq_true_eq] at hp
  have hv := hp.2
  unfold ItemNode.has_variant at hv
  rw [hp.1] at hv
  unfold ItemNode.is_struct_plain ItemNode.is_struct_unit ItemNode.is_struct_tuple
  cases hin : e.item.inner <;> rw [hin] at hv <;> simp_all

theorem containerOf_plain {es : List (ItemNode × ItemNode)} {s : ItemNode}
    {nm : String} {L : List (Indexed (Named Format))}
    (hsrc : isSource es s = true) (hkind : s.is_struct_plain = true)
    (hnm : s.name = Option.some nm) (hL : namedFormatsOf es s = .ok L) :
    containerOf es s = .ok (Option.some (nm, make_struct_plain L)) := by
  unfold containerOf
  rw [hsrc, hkind, hnm]
  simp only [Bool.and_self, if_true, hL]
  rfl

theorem containerOf_tuple {es : List (ItemNode × ItemNode)} {s : ItemNode}
    {nm : String} {L : List (Indexed Format)}
    (hsrc : isSource es s = true) (hkind : s.is_struct_tuple = true)
    (hnm : s.name = Option.some nm) (hL : formatsOf es s = .ok L) :
    containerOf es s = .ok (Option.some (nm, make_struct_tuple L)) := by
  obtain ⟨hnp, hnu⟩ := is_struct_tuple_not_other hkind
  unfold containerOf
  rw [hsrc, hkind, hnp, hnu, hnm]
  simp only [Bool.and_false, Bool.and_self, if_false, if_true, hL]
  rfl

theorem containerOf_enum {es : List (ItemNode × ItemNode)} {e : ItemNode}
    {nm : String} {L : List (Indexed (Named VariantFormat))}
    (hvc : hasVariantChild es e = true)
    (hnm : e.name = Option.some nm) (hL : variantFormatsOf es e = .ok L) :
    containerOf es e = .ok (Option.some (nm, make_enum L)) := by
  obtain ⟨hnp, hnu, hnt⟩ := hasVariantChild_is_enum hvc
  unfold containerOf
  rw [hnp, hnu, hnt, hvc, hnm]
  simp only [Bool.and_false, if_false, if_true, hL]
  rfl

/-! ## Claim theorems -/

theorem exists_cons2 {α : Type} {l : List α} (h : 2 ≤ l.length) :
    ∃ a b rest, l = a :: b :: rest := by
  cases l with
  | nil => simp at h
  | cons a l2 =>
    cases l2 with
    | nil => simp at h
    | cons b rest => exact ⟨a, b, rest, rfl⟩

theorem make_tuple_variant_format_eq {v : ItemNode} {fs : List (Indexed Format)}
    {vs : List ItemNode} {e : ItemNode} {i : Nat} {nm : String} {k : VariantKind}
    (hpos : position v vs = Option.some i) (hnm : v.item.name = Option.some nm)
    (hk : v.item.inner = ItemEnum.variant k) :
    make_tuple_variant_format v fs vs e =
      Option.some ⟨u32mod i, ⟨variant_name nm v.item.attrs e.item.attrs,
        match (sortIndexed fs).map (·.value) with
        | [] => VariantFormat.Unit
        | [f] => VariantFormat.NewType f
        | l => VariantFormat.Tuple l⟩⟩ := by
  unfold make_tuple_variant_format
  rw [hpos, hnm, hk]

/-- C1: for every tuple struct processed by the format engine, zero
collected fields produce UnitStruct, exactly one produces NewTypeStruct of
that field's format, and two or more produce TupleStruct; for every
tuple-kind enum variant, zero payload formats collapse to Unit, one to
NewType, two or more stay Tuple; and a plain struct with zero collected
(non-skipped) fields produces UnitStruct. -/
theorem C1_collapse (x : Indexed Format) (fs : List (Indexed Format))
    (v : ItemNode) (vs : List ItemNode) (e : ItemNode) (i : Nat) (nm : String)
    (k : VariantKind)
    (hpos : position v vs = Option.some i) (hnm : v.item.name = Option.some nm)
    (hk : v.item.inner = ItemEnum.variant k) :
    make_struct_tuple [] = ContainerFormat.UnitStruct ∧
    make_struct_tuple [x] = ContainerFormat.NewTypeStruct x.value ∧
    (2 ≤ fs.length → ∃ l, make_struct_tuple fs = ContainerFormat.TupleStruct l ∧
      l.length = fs.length) ∧
    make_struct_plain [] = ContainerFormat.UnitStruct ∧
    make_tuple_variant_format v [] vs e =
      Option.some ⟨u32mod i, ⟨variant_name nm v.item.attrs e.item.attrs,
        VariantFormat.Unit⟩⟩ ∧
    make_tuple_variant_format v [x] vs e =
      Option.some ⟨u32mod i, ⟨variant_name nm v.item.attrs e.item.attrs,
        VariantFormat.NewType x.value⟩⟩ ∧
    (2 ≤ fs.length → ∃ l, make_tuple_variant_format v fs vs e =
      Option.some ⟨u32mod i, ⟨variant_name nm v.item.attrs e.item.attrs,
        VariantFormat.Tuple l⟩⟩ ∧ l.length = fs.length) := by
  have hmaplen : ∀ gs : List (Indexed Format),
      ((sortIndexed gs).map (·.value)).length = gs.length := by
    intro gs
    rw [List.length_map]
    exact (sortIndexed_perm gs).length_eq
  refine ⟨rfl, rfl, ?_, rfl, ?_, ?_, ?_⟩
  · intro h2
    obtain ⟨a, b, rest, hshape⟩ := exists_cons2 (by rw [hmaplen]; exact h2)
    refine ⟨a :: b :: rest, ?_, ?_⟩
    · unfold make_struct_tuple
      rw [hshape]
    · rw [← hshape, hmaplen]
  · rw [make_tuple_variant_format_eq hpos hnm hk]
    exact rfl
  · rw [make_tuple_variant_format_eq hpos hnm hk]
    exact rfl
  · intro h2
    obtain ⟨a, b, rest, hshape⟩ := exists_cons2 (by rw [hmaplen]; exact h2)
    refine ⟨a :: b :: rest, ?_, ?_⟩
    · rw [make_tuple_variant_format_eq hpos hnm hk, hshape]
    · rw [← hshape, hmaplen]

theorem C1_collapse_witness :
    make_tuple_variant_format wVb [⟨0, Format.u8⟩] [wVa, wVb] wE =
      Option.some ⟨u32mod 1, ⟨variant_name "B" wVb.item.attrs wE.item.attrs,
        VariantFormat.NewType Format.u8⟩⟩ :=
  (C1_collapse ⟨0, Format.u8⟩ [] wVb [wVa, wVb] wE 1 "B"
    (VariantKind.tuple [Option.some ⟨14⟩]) (by decide) (by decide)
    (by decide)).2.2.2.2.2.1

/-- C2: for every aggregate whose ContainerFormat appears in the output
registry (plain struct, tuple struct or enum), the collected children are
ordered ascending by their Indexed index after the sort, and the set of
those indices is exactly 0..k-1 for k children; the registry entry is the
aggregate's container built from exactly that sorted list.  The
well-formedness hypotheses (distinct declared ids, each ordered child
successfully producing a format, child counts below 2^32) hold for every
rustdoc-generated index. -/
theorem C2_children_sorted_contiguous
    (es : List (ItemNode × ItemNode)) (s : ItemNode) (nm : String)
    (hnm : s.name = Option.some nm) :
    (s.is_struct_plain = true → isSource es s = true →
      (declaredFieldIds s).Nodup →
      (fieldsOf es s).length ≤ 4294967296 →
      (∀ f ∈ fieldsOf es s,
        okSome (make_named_format f (fieldsOf es s) s) = true) →
      ∃ L, namedFormatsOf es s = .ok L ∧ L.length = (fieldsOf es s).length ∧
        (sortIndexed L).map (·.index) = List.range L.length ∧
        containerOf es s = .ok (Option.some (nm, make_struct_plain L))) ∧
    (s.is_struct_tuple = true → isSource es s = true →
      (declaredFieldIds s).Nodup →
      (fieldsOf es s).length ≤ 4294967296 →
      (∀ f ∈ fieldsOf es s, okSome (make_format f (fieldsOf es s)) = true) →
      ∃ L, formatsOf es s = .ok L ∧ L.length = (fieldsOf es s).length ∧
        (sortIndexed L).map (·.index) = List.range L.length ∧
        containerOf es s = .ok (Option.some (nm, make_struct_tuple L))) ∧
    (hasVariantChild es s = true →
      (declaredVariantIds s).Nodup →
      (variantsOf es s).length ≤ 4294967296 →
      (∀ v ∈ variantChildren es s, (formatVariantOf es s v).isOk = true) →
      (∀ v ∈ variantsOf es s, okSome (formatVariantOf es s v) = true) →
      ∃ L entries, variantFormatsOf es s = .ok L ∧
        L.length = (variantsOf es s).length ∧
        make_enum L = ContainerFormat.Enum entries ∧
        entries.map Prod.fst = List.range L.length ∧
        containerOf es s = .ok (Option.some (nm, make_enum L))) := by
  refine ⟨?_, ?_, ?_⟩
  · intro hkind hsrc hids hlen hOk
    obtain ⟨L, hL, hlen2, _, hsort⟩ := namedFormats_sorted_range hids hlen hOk
    exact ⟨L, hL, hlen2, by rw [hlen2]; exact hsort,
      containerOf_plain hsrc hkind hnm hL⟩
  · intro hkind hsrc hids hlen hOk
    obtain ⟨L, hL, hlen2, _, hsort⟩ := formats_sorted_range hids hlen hOk
    exact ⟨L, hL, hlen2, by rw [hlen2]; exact hsort,
      containerOf_tuple hsrc hkind hnm hL⟩
  · intro hvc hids hlen hallOk hOk
    obtain ⟨L, hL, hlen2, hperm, _⟩ := variantFormats_sorted_range hids hlen hallOk hOk
    obtain ⟨entries, hE, hkeys⟩ := make_enum_keys hperm
    exact ⟨L, entries, hL, hlen2, hE, by rw [hlen2]; exact hkeys,
      containerOf_enum hvc hnm hL⟩

theorem C2_children_sorted_contiguous_witness :
    (∃ L, namedFormatsOf wEdges wS = .ok L ∧ L.length = (fieldsOf wEdges wS).length ∧
      (sortIndexed L).map (·.index) = List.range L.length ∧
      containerOf wEdges wS = .ok (Option.some ("S", make_struct_plain L))) ∧
    (∃ L, formatsOf wEdges wT = .ok L ∧ L.length = (fieldsOf wEdges wT).length ∧
      (sortIndexed L).map (·.index) = List.range L.length ∧
      containerOf wEdges wT = .ok (Option.some ("T", make_struct_tuple L))) ∧
    (∃ L entries, variantFormatsOf wEdges wE = .ok L ∧
      L.length = (variantsOf wEdges wE).length ∧
      make_enum L = ContainerFormat.Enum entries ∧
      entries.map Prod.fst = List.range L.length ∧
      containerOf wEdges wE = .ok (Option.some ("E", make_enum L))) :=
  ⟨(C2_children_sorted_contiguous wEdges wS "S" (by decide)).1 (by decide)
      (by decide) (by decide) (by decide) (by decide),
   (C2_children_sorted_contiguous wEdges wT "T" (by decide)).2.1 (by decide)
      (by decide) (by decide) (by decide) (by decide),
   (C2_children_sorted_contiguous wEdges wE "E" (by decide)).2.2 (by decide)
      (by decide) (by decide) (by decide) (by decide)⟩

/-- C3: the claim states that a field of unsupported declared type
(reference, raw pointer, slice, ...) silently produces no format and the
program does not panic.  The code disagrees: the type translation hits
todo! and panics.  At the concrete failing input - a plain struct R whose
only field has type reference-to-i32 - the translation, the format
relation for R and the whole registry computation all abort with the
borrowed-ref panic instead of emitting R without that member. -/
theorem C3_unsupported_construct_panics :
    formatFromType (.borrowedRef false (.primitive "i32")) =
      .error "todo: borrowed ref" ∧
    namedFormatsOf wEdgesRef wR = .error "todo: borrowed ref" ∧
    containers wEdgesRef = .error "todo: borrowed ref" :=
  ⟨rfl, rfl, rfl⟩

/-- C4: if the edge relation contains the App-impl pattern - a TraitApp
edge, a Type edge to A, an AssociatedItem edge to i and an AssociatedType
edge from i to Ev - and no parent fact for A is derivable, then Ev is a
root; and every node reachable from a root by a first Field-or-Variant
edge followed by Field, Variant or Type edges appears as the second
component of an output fact. -/
theorem C4_root_and_output (E : EdgeRel) :
    (∀ app_impl app_trait a i ev,
      (app_impl, app_trait, Edge.traitApp) ∈ E →
      (app_impl, a, Edge.type) ∈ E →
      (app_impl, i, Edge.associatedItem) ∈ E →
      (i, ev, Edge.associatedType) ∈ E →
      (¬ ∃ p, parentRel E p a) →
      rootRel E ev) ∧
    (∀ r c, rootRel E r → ReachFV E r c → ∃ p, outputRel E p c) := by
  constructor
  · intro app_impl app_trait a i ev h1 h2 h3 h4 h5
    exact Or.inl ⟨app_impl, app_trait, a, i, h1, h2, h5, h3, h4⟩
  · intro r c hroot hreach
    induction hreach with
    | first c l hmem hlab =>
      exact ⟨r, outputRel.base r c l hroot hmem hlab⟩
    | next p c l hr hmem hlab ih =>
      obtain ⟨q, hq⟩ := ih
      exact ⟨p, outputRel.step q p c l hq hmem hlab⟩

theorem C4_root_and_output_witness :
    rootRel pEdges pnEvent ∧ (∃ p, outputRel pEdges p pnTy) := by
  have hnp : ¬ ∃ p, parentRel pEdges p pnApp := by
    rintro ⟨p, _, _, f, hf, _⟩
    simp [pEdges] at hf
  have hroot : rootRel pEdges pnEvent :=
    (C4_root_and_output pEdges).1 pnImpl pnTrait pnApp pnAssoc pnEvent
      (by decide) (by decide) (by decide) (by decide) hnp
  refine ⟨hroot, ?_⟩
  refine (C4_root_and_output pEdges).2 pnEvent pnTy hroot ?_
  refine ReachFV.next pnEvent pnVar pnTy Edge.type ?_ (by decide) (by tauto)
  exact ReachFV.first pnEvent pnVar Edge.variant (by decide) (by tauto)

theorem matchKeyValAt_ne_empty {key l : List Char} {v : String}
    (h : matchKeyValAt key l = Option.some v) : v ≠ "" := by
  unfold matchKeyValAt at h
  cases h1 : stripLit ('[' :: ("serde(".data ++ key)) l with
  | none => rw [h1] at h; exact absurd h (by simp)
  | some l1 =>
    rw [h1] at h
    simp only [] at h
    cases h2 : stripLit ['='] (dropWs l1) with
    | none => rw [h2] at h; exact absurd h (by simp)
    | some l2 =>
      rw [h2] at h
      simp only [] at h
      cases h3 : stripLit ['\"'] (dropWs l2) with
      | none => rw [h3] at h; exact absurd h (by simp)
      | some l3 =>
        rw [h3] at h
        simp only [] at h
        cases h4 : takeWord l3 with
        | mk w l4 =>
          rw [h4] at h
          simp only [] at h
          by_cases hw : w.isEmpty
          · rw [if_pos hw] at h; exact absurd h (by simp)
          · rw [if_neg hw] at h
            cases h5 : stripLit ['\"', ')', ']'] l4 with
            | none => rw [h5] at h; exact absurd h (by simp)
            | some l5 =>
              rw [h5] at h
              simp only [] at h
              injection h with h
              rw [← h]
              intro hcontra
              apply hw
              have hwnil : w = [] := by
                have h6 := congrArg String.data hcontra
                simpa using h6
              simp [hwnil]

theorem findKeyVal_ne_empty {key : List Char} {v : String} :
    ∀ {l : List Char}, findKeyVal key l = Option.some v → v ≠ "" := by
  intro l
  induction l with
  | nil => intro h; exact absurd h (by simp [findKeyVal])
  | cons c rest ih =>
    intro h
    rw [findKeyVal] at h
    cases hm : matchKeyValAt key (c :: rest) with
    | some v2 =>
      rw [hm] at h
      injection h with h
      exact h ▸ matchKeyValAt_ne_empty hm
    | none =>
      rw [hm] at h
      exact ih h

theorem getRename_ne_empty {attr v : String}
    (h : getRename attr = Option.some v) : v ≠ "" :=
  findKeyVal_ne_empty h

theorem foldl_rename (attrs : List String) (init : String) :
    attrs.foldl (fun acc attr =>
      match getRename attr with
      | Option.some v => v
      | Option.none => acc) init =
    (match attrs.reverse.findSome? getRename with
      | Option.some v => v
      | Option.none => init) := by
  induction attrs generalizing init with
  | nil => rfl
  | cons a as ih =>
    rw [List.foldl_cons, ih, List.reverse_cons, List.findSome?_append]
    cases has : as.reverse.findSome? getRename with
    | some v => rfl
    | none =>
      cases ha : getRename a <;>
        simp [List.findSome?, ha, Option.orElse]

/-- C5: for every aggregate emitted to the registry, the key equals the
value captured from an item-level serde rename attribute when one is
present (the last capture when several attributes match), and otherwise
the source name; the registry key is exactly ItemNode::name, the
rename-aware serialization name. -/
theorem C5_registry_key (n : ItemNode) (es : List (ItemNode × ItemNode))
    (s : ItemNode) (nm : String) (cf : ContainerFormat) :
    (∀ v, n.item.attrs.reverse.findSome? getRename = Option.some v →
      n.name = Option.some v) ∧
    (n.item.attrs.reverse.findSome? getRename = Option.none →
      n.name = n.item.name) ∧
    (containerOf es s = .ok (Option.some (nm, cf)) → s.name = Option.some nm) := by
  refine ⟨?_, ?_, ?_⟩
  · intro v hv
    unfold ItemNode.name
    rw [foldl_rename, hv]
    obtain ⟨a, _, ha⟩ := List.exists_of_findSome?_eq_some hv
    rw [if_neg (getRename_ne_empty ha)]
  · intro hv
    unfold ItemNode.name
    rw [foldl_rename, hv]
    simp
  · intro h
    cases hnm2 : s.name with
    | none =>
      unfold containerOf at h
      rw [hnm2] at h
      split at h <;> simp [pure, Except.pure] at h
    | some name =>
      unfold containerOf at h
      rw [hnm2] at h
      split at h
      · cases hN : namedFormatsOf es s with
        | error e => rw [hN] at h; exact absurd h (by simp [bind, Except.bind])
        | ok L =>
          rw [hN] at h
          simp only [bind, Except.bind, pure, Except.pure, Except.ok.injEq,
            Option.some.injEq, Prod.mk.injEq] at h
          exact congrArg Option.some h.1
      · split at h
        · simp only [pure, Except.pure, Except.ok.injEq, Option.some.injEq,
            Prod.mk.injEq] at h
          exact congrArg Option.some h.1
        · split at h
          · cases hN : formatsOf es s with
            | error e => rw [hN] at h; exact absurd h (by simp [bind, Except.bind])
            | ok L =>
              rw [hN] at h
              simp only [bind, Except.bind, pure, Except.pure, Except.ok.injEq,
                Option.some.injEq, Prod.mk.injEq] at h
              exact congrArg Option.some h.1
          · split at h
            · cases hN : variantFormatsOf es s with
              | error e =>
                rw [hN] at h
                exact absurd h (by simp [bind, Except.bind])
              | ok L =>
                rw [hN] at h
                simp only [bind, Except.bind, pure, Except.pure, Except.ok.injEq,
                  Option.some.injEq, Prod.mk.injEq] at h
                exact congrArg Option.some h.1
            · exact absurd h (by simp [pure, Except.pure])

theorem C5_registry_key_witness :
    (ItemNode.name ⟨⟨⟨0⟩, 0, Option.some "Foo",
      ["#[serde(rename = \"Bar\")]"], .module⟩⟩ = Option.some "Bar") ∧
    (ItemNode.name wS = Option.some "S") ∧
    (wS.name = Option.some "S") :=
  ⟨(C5_registry_key ⟨⟨⟨0⟩, 0, Option.some "Foo",
      ["#[serde(rename = \"Bar\")]"], .module⟩⟩ wEdges wS "S"
      ContainerFormat.UnitStruct).1 "Bar" (by decide),
   (C5_registry_key wS wEdges wS "S" ContainerFormat.UnitStruct).2.1 (by decide),
   (C5_registry_key wS wEdges wS "S"
      (make_struct_plain [⟨0, ⟨"a", Format.bool⟩⟩, ⟨1, ⟨"b", Format.i32⟩⟩])).2.2
      (by rfl)⟩

/-- C6: a member's emitted name is its own serde rename if present, else
the container's rename_all rule applied to the declared name, else the
declared name unchanged; an explicit member rename always wins. -/
theorem C6_member_rename_priority (name : String) (fattrs cattrs : List String) :
    (∀ r, fattrs.findSome? getRename = Option.some r →
      field_name name fattrs cattrs = r ∧ variant_name name fattrs cattrs = r) ∧
    (∀ ra, fattrs.findSome? getRename = Option.none →
      cattrs.findSome? getRenameAll = Option.some ra →
      field_name name fattrs cattrs =
        ((RenameRule.from_str ra).getD RenameRule.None).apply_to_field name ∧
      variant_name name fattrs cattrs =
        ((RenameRule.from_str ra).getD RenameRule.None).apply_to_variant name) ∧
    (fattrs.findSome? getRename = Option.none →
      cattrs.findSome? getRenameAll = Option.none →
      field_name name fattrs cattrs = name ∧
      variant_name name fattrs cattrs = name) := by
  refine ⟨?_, ?_, ?_⟩
  · intro r hr
    unfold field_name variant_name
    rw [hr]
    exact ⟨rfl, rfl⟩
  · intro ra hn hra
    unfold field_name variant_name
    rw [hn, hra]
    exact ⟨rfl, rfl⟩
  · intro hn hra
    unfold field_name variant_name
    rw [hn, hra]
    exact ⟨rfl, rfl⟩

theorem C6_member_rename_priority_witness :
    (field_name "foo_bar" ["#[serde(rename = \"bar\")]"]
        ["#[serde(rename_all = \"PascalCase\")]"] = "bar" ∧
      variant_name "foo_bar" ["#[serde(rename = \"bar\")]"]
        ["#[serde(rename_all = \"PascalCase\")]"] = "bar") ∧
    (field_name "foo_bar" [] ["#[serde(rename_all = \"camelCase\")]"] = "fooBar") ∧
    (variant_name "FooBar" [] ["#[serde(rename_all = \"snake_case\")]"] = "foo_bar") := by
  refine ⟨?_, ?_, ?_⟩
  · exact (C6_member_rename_priority "foo_bar" ["#[serde(rename = \"bar\")]"]
      ["#[serde(rename_all = \"PascalCase\")]"]).1 "bar" (by decide)
  · have := (C6_member_rename_priority "foo_bar" []
      ["#[serde(rename_all = \"camelCase\")]"]).2.1 "camelCase" (by decide) (by decide)
    rw [this.1]
    decide
  · have := (C6_member_rename_priority "FooBar" []
      ["#[serde(rename_all = \"snake_case\")]"]).2.1 "snake_case" (by decide) (by decide)
    rw [this.2]
    decide

theorem flatMap_filter_of_nil {α β : Type} (q : α → Bool) (g : α → List β) :
    ∀ (l : List α), (∀ p ∈ l, q p = false → g p = []) →
      l.flatMap g = (l.filter q).flatMap g := by
  intro l
  induction l with
  | nil => intro _; rfl
  | cons p rest ih =>
    intro h
    rw [List.flatMap_cons, List.filter_cons]
    cases hq : q p with
    | true =>
      simp only [if_true]
      rw [List.flatMap_cons, ih (fun x hx hqx => h x (List.mem_cons_of_mem p hx) hqx)]
    | false =>
      simp only [Bool.false_eq_true, if_false]
      rw [h p (List.mem_cons_self p rest) hq, List.nil_append,
        ih (fun x hx hqx => h x (List.mem_cons_of_mem p hx) hqx)]

/-- C7 counterexample: the claim says the edge-extraction scan emits no
edges from any item that is skipped under the whitespace-tolerant
matching.  The item Sk carries the attribute with spaces inside the
parentheses: it is skipped under the whitespace-tolerant regex
(should_skip is true), yet the scan - which compares attribute strings for
exact equality with the literal - still emits its Field edge. -/
theorem C7_counterexample :
    ItemNode.should_skip ⟨wSkipItem⟩ = true ∧
    (⟨Option.some wSkipItem, Option.none⟩, ⟨Option.some wSkipField, Option.none⟩,
      Edge.field) ∈ extractEdges wSkipData :=
  ⟨by decide, by decide⟩

/-- C7 amended: an item counts as skipped (node.rs should_skip) iff some
attribute matches the whitespace-tolerant skip regex; but the
edge-extraction scan of parser.rs skips exactly the items whose attribute
list contains the literal string "#[serde(skip)]" - its output equals the
scan of the index filtered by that exact-string test, so whitespace
variants of the attribute are not skipped by the scan. -/
theorem C7_skip_detection (n : ItemNode) (d : Data) :
    (n.should_skip = true ↔ ∃ a ∈ n.item.attrs, isSkipAttr a = true) ∧
    extractEdges d =
      (d.index.filter
        (fun p => !(p.2.attrs.contains "#[serde(skip)]"))).flatMap
        (fun p =>
          match d.node_by_id p.1 with
          | Option.none => []
          | Option.some source =>
            if "#[serde(skip)]" ∈ p.2.attrs then []
            else itemEdges d source p.2) := by
  constructor
  · unfold ItemNode.should_skip
    rw [List.any_eq_true]
  · unfold extractEdges
    refine flatMap_filter_of_nil _ _ d.index ?_
    intro p _ hq
    simp only [Bool.not_eq_false'] at hq
    cases hnb : d.node_by_id p.1 with
    | none => rfl
    | some source =>
      have hmem : "#[serde(skip)]" ∈ p.2.attrs := by
        simpa using hq
      show (if "#[serde(skip)]" ∈ p.2.attrs then []
        else itemEdges d source p.2) = []
      rw [if_pos hmem]

theorem C7_skip_detection_witness :
    (ItemNode.should_skip ⟨wSkipItem⟩ = true ↔
      ∃ a ∈ wSkipItem.attrs, isSkipAttr a = true) ∧
    extractEdges wSkipData =
      (wSkipData.index.filter
        (fun p => !(p.2.attrs.contains "#[serde(skip)]"))).flatMap
        (fun p =>
          match wSkipData.node_by_id p.1 with
          | Option.none => []
          | Option.some source =>
            if "#[serde(skip)]" ∈ p.2.attrs then []
            else itemEdges wSkipData source p.2) :=
  C7_skip_detection ⟨wSkipItem⟩ wSkipData

/-- Unfolding equation of check_type at a resolved path. -/
theorem check_type_eq_resolvedPath (parent : RId) (name : String) (pid : RId)
    (pargs : ROptArgs) (r : Bool) :
    check_type parent (.resolvedPath (.mk name pid pargs)) r =
      (if (r && (decide (name = "Option") || decide (name = "String") ||
          decide (name = "Vec"))) = true then false
       else (decide (pid = parent) ||
         (match pargs with
          | ROptArgs.some args => check_args parent args r
          | ROptArgs.none => false))) := by
  rw [check_type.eq_def]

/-- Unfolding equation of check_type at a qualified path. -/
theorem check_type_eq_qualifiedPath (parent : RId) (nm : String)
    (qargs : RGenericArgs) (self_type : RustType) (r : Bool) :
    check_type parent (.qualifiedPath nm qargs self_type) r =
      (if r = true then
        check_type parent self_type r || check_args parent qargs r
       else false) := by
  rw [check_type.eq_def]

/-- Unfolding equation of check_type at a primitive. -/
theorem check_type_eq_primitive (parent : RId) (s : String) (r : Bool) :
    check_type parent (.primitive s) r = false := by
  rw [check_type.eq_def]

/-- Unfolding equation of check_type at a tuple. -/
theorem check_type_eq_tuple (parent : RId) (ts : RustTypeList) (r : Bool) :
    check_type parent (.tuple ts) r = check_type_list parent ts r := by
  rw [check_type.eq_def]

/-- Unfolding equation of check_type at a slice. -/
theorem check_type_eq_slice (parent : RId) (t : RustType) (r : Bool) :
    check_type parent (.slice t) r = check_type parent t r := by
  rw [check_type.eq_def]

/-- Unfolding equation of check_type at an array. -/
theorem check_type_eq_array (parent : RId) (t : RustType) (len : String)
    (r : Bool) :
    check_type parent (.array t len) r = check_type parent t r := by
  rw [check_type.eq_def]

/-- Unfolding equation of check_type at a trait object. -/
theorem check_type_eq_dynTrait (parent : RId) (r : Bool) :
    check_type parent .dynTrait r = false := by
  rw [check_type.eq_def]

/-- Unfolding equation of check_type at a generic parameter. -/
theorem check_type_eq_generic (parent : RId) (s : String) (r : Bool) :
    check_type parent (.generic s) r = false := by
  rw [check_type.eq_def]

/-- Unfolding equation of check_type at a function pointer. -/
theorem check_type_eq_functionPointer (parent : RId) (r : Bool) :
    check_type parent .functionPointer r = false := by
  rw [check_type.eq_def]

/-- Unfolding equation of check_type at a pattern type. -/
theorem check_type_eq_pat (parent : RId) (t : RustType) (r : Bool) :
    check_type parent (.pat t) r = false := by
  rw [check_type.eq_def]

/-- Unfolding equation of check_type at an impl-trait type. -/
theorem check_type_eq_implTrait (parent : RId) (r : Bool) :
    check_type parent .implTrait r = false := by
  rw [check_type.eq_def]

/-- Unfolding equation of check_type at an inferred type. -/
theorem check_type_eq_infer (parent : RId) (r : Bool) :
    check_type parent .infer r = false := by
  rw [check_type.eq_def]

/-- Unfolding equation of check_type at a raw pointer. -/
theorem check_type_eq_rawPointer (parent : RId) (m : Bool) (t : RustType)
    (r : Bool) :
    check_type parent (.rawPointer m t) r = false := by
  rw [check_type.eq_def]

/-- Unfolding equation of check_type at a borrowed reference. -/
theorem check_type_eq_borrowedRef (parent : RId) (m : Bool) (t : RustType)
    (r : Bool) :
    check_type parent (.borrowedRef m t) r = false := by
  rw [check_type.eq_def]

/-- Unfolding equation of check_args at angle-bracketed arguments. -/
theorem check_args_eq_angle (parent : RId) (l : RGenericArgList) (r : Bool) :
    check_args parent (.angleBracketed l) r = check_arg_list parent l r := by
  rw [check_args.eq_def]

/-- Unfolding equation of check_args at parenthesized arguments. -/
theorem check_args_eq_paren (parent : RId) (inputs : RustTypeList)
    (out : ROptType) (r : Bool) :
    check_args parent (.parenthesized inputs out) r =
      check_type_list parent inputs r := by
  rw [check_args.eq_def]

/-- Unfolding equation of check_arg_list at the empty list. -/
theorem check_arg_list_eq_nil (parent : RId) (r : Bool) :
    check_arg_list parent .nil r = false := by
  rw [check_arg_list.eq_def]

/-- Unfolding equation of check_arg_list at a type argument. -/
theorem check_arg_list_eq_type (parent : RId) (t : RustType)
    (rest : RGenericArgList) (r : Bool) :
    check_arg_list parent (.cons (.type t) rest) r =
      (check_type parent t r || check_arg_list parent rest r) := by
  rw [check_arg_list.eq_def]

/-- Unfolding equation of check_arg_list at a lifetime argument. -/
theorem check_arg_list_eq_lifetime (parent : RId) (s : String)
    (rest : RGenericArgList) (r : Bool) :
    check_arg_list parent (.cons (.lifetime s) rest) r =
      check_arg_list parent rest r := by
  rw [check_arg_list.eq_def]

/-- Unfolding equation of check_arg_list at a const argument. -/
theorem check_arg_list_eq_const (parent : RId) (rest : RGenericArgList)
    (r : Bool) :
    check_arg_list parent (.cons .const rest) r =
      check_arg_list parent rest r := by
  rw [check_arg_list.eq_def]

/-- Unfolding equation of check_arg_list at an inferred argument. -/
theorem check_arg_list_eq_inferArg (parent : RId) (rest : RGenericArgList)
    (r : Bool) :
    check_arg_list parent (.cons .inferArg rest) r =
      check_arg_list parent rest r := by
  rw [check_arg_list.eq_def]

/-- Unfolding equation of check_type_list at the empty list. -/
theorem check_type_list_eq_nil (parent : RId) (r : Bool) :
    check_type_list parent .nil r = false := by
  rw [check_type_list.eq_def]

/-- Unfolding equation of check_type_list at a cons cell. -/
theorem check_type_list_eq_cons (parent : RId) (t : RustType)
    (rest : RustTypeList) (r : Bool) :
    check_type_list parent (.cons t rest) r =
      (check_type parent t r || check_type_list parent rest r) := by
  rw [check_type_list.eq_def]

theorem remote_occurs_iff_aux (target : RId) :
    ∀ n : Nat,
      (∀ t : RustType, sizeOf t ≤ n →
        (check_type target t true = true ↔ RemoteOccurs target t)) ∧
      (∀ args : RGenericArgs, sizeOf args ≤ n →
        (check_args target args true = true ↔ RemoteOccursArgs target args)) ∧
      (∀ l : RGenericArgList, sizeOf l ≤ n →
        (check_arg_list target l true = true ↔ RemoteOccursArgList target l)) ∧
      (∀ ts : RustTypeList, sizeOf ts ≤ n →
        (check_type_list target ts true = true ↔ RemoteOccursList target ts)) := by
  intro n
  induction n using Nat.strong_induction_on with
  | _ n ih =>
    have ihT : ∀ (t : RustType), sizeOf t < n →
        (check_type target t true = true ↔ RemoteOccurs target t) :=
      fun t hlt => (ih _ hlt).1 t le_rfl
    have ihA : ∀ (args : RGenericArgs), sizeOf args < n →
        (check_args target args true = true ↔ RemoteOccursArgs target args) :=
      fun a hlt => (ih _ hlt).2.1 a le_rfl
    have ihAL : ∀ (l : RGenericArgList), sizeOf l < n →
        (check_arg_list target l true = true ↔ RemoteOccursArgList target l) :=
      fun a hlt => (ih _ hlt).2.2.1 a le_rfl
    have ihTL : ∀ (ts : RustTypeList), sizeOf ts < n →
        (check_type_list target ts true = true ↔ RemoteOccursList target ts) :=
      fun a hlt => (ih _ hlt).2.2.2 a le_rfl
    refine ⟨?_, ?_, ?_, ?_⟩
    · intro t hsz
      cases t with
      | resolvedPath p =>
        obtain ⟨name, pid, pargs⟩ := p
        rw [check_type_eq_resolvedPath]
        by_cases hb : name = "Option" ∨ name = "String" ∨ name = "Vec"
        · rw [if_pos (by rcases hb with h | h | h <;> simp [h])]
          constructor
          · intro h
            exact absurd h (by simp)
          · intro h
            exfalso
            cases h with
            | path_self _ _ _ _ h1 h2 h3 => tauto
            | path_arg _ _ _ h1 h2 h3 _ => tauto
        · push_neg at hb
          rw [if_neg (by simp [hb.1, hb.2.1, hb.2.2])]
          constructor
          · intro h
            rw [Bool.or_eq_true] at h
            rcases h with h | h
            · exact RemoteOccurs.path_self name pid pargs (by simpa using h)
                hb.1 hb.2.1 hb.2.2
            · cases pargs with
              | none => simp at h
              | some args =>
                have hlt : sizeOf args < n := by
                  have := hsz
                  simp only [RustType.resolvedPath.sizeOf_spec,
                    RPath.mk.sizeOf_spec, ROptArgs.some.sizeOf_spec] at this
                  omega
                exact RemoteOccurs.path_arg name pid args hb.1 hb.2.1 hb.2.2
                  ((ihA args hlt).mp h)
          · intro h
            cases h with
            | path_self _ _ _ hid _ _ _ => simp [hid]
            | path_arg _ _ args _ _ _ hargs =>
              have hlt : sizeOf args < n := by
                have := hsz
                simp only [RustType.resolvedPath.sizeOf_spec,
                  RPath.mk.sizeOf_spec, ROptArgs.some.sizeOf_spec] at this
                omega
              have hc := (ihA args hlt).mpr hargs
              simp [hc]
      | qualifiedPath nm qargs self_type =>
        have hlt1 : sizeOf self_type < n := by
          have := hsz
          simp only [RustType.qualifiedPath.sizeOf_spec] at this
          omega
        have hlt2 : sizeOf qargs < n := by
          have := hsz
          simp only [RustType.qualifiedPath.sizeOf_spec] at this
          omega
        rw [check_type_eq_qualifiedPath]
        rw [if_pos rfl]
        constructor
        · intro h
          rw [Bool.or_eq_true] at h
          rcases h with h | h
          · exact RemoteOccurs.qual_self nm qargs self_type ((ihT self_type hlt1).mp h)
          · exact RemoteOccurs.qual_args nm qargs self_type ((ihA qargs hlt2).mp h)
        · intro h
          cases h with
          | qual_self _ _ _ hs => simp [(ihT self_type hlt1).mpr hs]
          | qual_args _ _ _ ha => simp [(ihA qargs hlt2).mpr ha]
      | primitive s =>
        rw [check_type_eq_primitive]
        exact ⟨fun h => absurd h (by simp), fun h => nomatch h⟩
      | tuple ts =>
        have hlt : sizeOf ts < n := by
          have := hsz
          simp only [RustType.tuple.sizeOf_spec] at this
          omega
        rw [check_type_eq_tuple]
        constructor
        · intro h
          exact RemoteOccurs.tuple_mem ts ((ihTL ts hlt).mp h)
        · intro h
          cases h with
          | tuple_mem _ hl => exact (ihTL ts hlt).mpr hl
      | slice t =>
        have hlt : sizeOf t < n := by
          have := hsz
          simp only [RustType.slice.sizeOf_spec] at this
          omega
        rw [check_type_eq_slice]
        constructor
        · intro h
          exact RemoteOccurs.slice_elem t ((ihT t hlt).mp h)
        · intro h
          cases h with
          | slice_elem _ ht => exact (ihT t hlt).mpr ht
      | array t len =>
        have hlt : sizeOf t < n := by
          have := hsz
          simp only [RustType.array.sizeOf_spec] at this
          omega
        rw [check_type_eq_array]
        constructor
        · intro h
          exact RemoteOccurs.array_elem t len ((ihT t hlt).mp h)
        · intro h
          cases h with
          | array_elem _ _ ht => exact (ihT t hlt).mpr ht
      | dynTrait =>
        rw [check_type_eq_dynTrait]
        exact ⟨fun h => absurd h (by simp), fun h => nomatch h⟩
      | generic s =>
        rw [check_type_eq_generic]
        exact ⟨fun h => absurd h (by simp), fun h => nomatch h⟩
      | functionPointer =>
        rw [check_type_eq_functionPointer]
        exact ⟨fun h => absurd h (by simp), fun h => nomatch h⟩
      | pat t =>
        rw [check_type_eq_pat]
        exact ⟨fun h => absurd h (by simp), fun h => nomatch h⟩
      | implTrait =>
        rw [check_type_eq_implTrait]
        exact ⟨fun h => absurd h (by simp), fun h => nomatch h⟩
      | infer =>
        rw [check_type_eq_infer]
        exact ⟨fun h => absurd h (by simp), fun h => nomatch h⟩
      | rawPointer m t =>
        rw [check_type_eq_rawPointer]
        exact ⟨fun h => absurd h (by simp), fun h => nomatch h⟩
      | borrowedRef m t =>
        rw [check_type_eq_borrowedRef]
        exact ⟨fun h => absurd h (by simp), fun h => nomatch h⟩
    · intro args hsz
      cases args with
      | angleBracketed l =>
        have hlt : sizeOf l < n := by
          have := hsz
          simp only [RGenericArgs.angleBracketed.sizeOf_spec] at this
          omega
        rw [check_args_eq_angle]
        constructor
        · intro h
          exact RemoteOccursArgs.angle l ((ihAL l hlt).mp h)
        · intro h
          cases h with
          | angle _ hl => exact (ihAL l hlt).mpr hl
      | parenthesized inputs out =>
        have hlt : sizeOf inputs < n := by
          have := hsz
          simp only [RGenericArgs.parenthesized.sizeOf_spec] at this
          omega
        rw [check_args_eq_paren]
        constructor
        · intro h
          exact RemoteOccursArgs.paren inputs out ((ihTL inputs hlt).mp h)
        · intro h
          cases h with
          | paren _ _ hl => exact (ihTL inputs hlt).mpr hl
    · intro l hsz
      cases l with
      | nil =>
        rw [check_arg_list_eq_nil]
        exact ⟨fun h => absurd h (by simp), fun h => nomatch h⟩
      | cons a rest =>
        have hltr : sizeOf rest < n := by
          have := hsz
          simp only [RGenericArgList.cons.sizeOf_spec] at this
          omega
        cases a with
        | type t =>
          have hltt : sizeOf t < n := by
            have := hsz
            simp only [RGenericArgList.cons.sizeOf_spec,
              RGenericArg.type.sizeOf_spec] at this
            omega
          rw [check_arg_list_eq_type]
          constructor
          · intro h
            rw [Bool.or_eq_true] at h
            rcases h with h | h
            · exact RemoteOccursArgList.head t rest ((ihT t hltt).mp h)
            · exact RemoteOccursArgList.tail _ rest ((ihAL rest hltr).mp h)
          · intro h
            cases h with
            | head _ _ ht => simp [(ihT t hltt).mpr ht]
            | tail _ _ hrest => simp [(ihAL rest hltr).mpr hrest]
        | lifetime s =>
          rw [check_arg_list_eq_lifetime]
          constructor
          · intro h
            exact RemoteOccursArgList.tail _ rest ((ihAL rest hltr).mp h)
          · intro h
            cases h with
            | tail _ _ hrest => exact (ihAL rest hltr).mpr hrest
        | const =>
          rw [check_arg_list_eq_const]
          constructor
          · intro h
            exact RemoteOccursArgList.tail _ rest ((ihAL rest hltr).mp h)
          · intro h
            cases h with
            | tail _ _ hrest => exact (ihAL rest hltr).mpr hrest
        | inferArg =>
          rw [check_arg_list_eq_inferArg]
          constructor
          · intro h
            exact RemoteOccursArgList.tail _ rest ((ihAL rest hltr).mp h)
          · intro h
            cases h with
            | tail _ _ hrest => exact (ihAL rest hltr).mpr hrest
    · intro ts hsz
      cases ts with
      | nil =>
        rw [check_type_list_eq_nil]
        exact ⟨fun h => absurd h (by simp), fun h => nomatch h⟩
      | cons t rest =>
        have hltt : sizeOf t < n := by
          have := hsz
          simp only [RustTypeList.cons.sizeOf_spec] at this
          omega
        have hltr : sizeOf rest < n := by
          have := hsz
          simp only [RustTypeList.cons.sizeOf_spec] at this
          omega
        rw [check_type_list_eq_cons]
        constructor
        · intro h
          rw [Bool.or_eq_true] at h
          rcases h with h | h
          · exact RemoteOccursList.head t rest ((ihT t hltt).mp h)
          · exact RemoteOccursList.tail t rest ((ihTL rest hltr).mp h)
        · intro h
          cases h with
          | head _ _ ht => simp [(ihT t hltt).mpr ht]
          | tail _ _ hrest => simp [(ihTL rest hltr).mpr hrest]

theorem check_type_iff (target : RId) (t : RustType) :
    check_type target t true = true ↔ RemoteOccurs target t :=
  (remote_occurs_iff_aux target (sizeOf t)).1 t le_rfl

/-- Claim C8, counterexample: the struct field of declared type Option with
the remote target S as its generic argument, and the associated type
resolved to Option with S inside its generic arguments, both fail
is_of_remote_type, although under the claim's reading (the built-in path
itself does not match but matching stays transitive through its generic
arguments) both carry the target id. -/
theorem C8_counterexample :
    ItemNode.is_of_remote_type wRemField wRemSummary = false ∧
      specIsOfRemoteType wRemField wRemSummary = true ∧
      ItemNode.is_of_remote_type wRemAssoc wRemSummary = false ∧
      specIsOfRemoteType wRemAssoc wRemSummary = true := by
  refine ⟨?_, ?_, ?_, ?_⟩ <;> decide

/-- Claim C8 (amended): is_of_remote_type holds of a struct-field item
exactly when its declared type carries the target id in the RemoteOccurs
sense, where a resolved path named Option, String or Vec rejects its whole
subtree, generic arguments included, while qualified-path projections are
searched; and it holds of an associated-type item exactly when the declared
type is a resolved path whose own id is the target, with no recursion into
generic arguments at all. -/
theorem C8_remote_type_matching (n : ItemNode) (s : SummaryNode) :
    n.is_of_remote_type s = true ↔
      ((∃ t, n.item.inner = .structField t ∧ RemoteOccurs s.id t) ∨
       (∃ p, n.item.inner = .assocType (Option.some (.resolvedPath p)) ∧
         p.pathId = s.id)) := by
  unfold ItemNode.is_of_remote_type ItemNode.is_of_type
  cases hinner : n.item.inner
  case structField t =>
    constructor
    · intro h
      exact Or.inl ⟨t, rfl, (check_type_iff s.id t).mp h⟩
    · rintro (⟨t2, ht2, hro⟩ | ⟨p, hp, hpid⟩)
      · injection ht2 with h2
        subst h2
        exact (check_type_iff s.id t).mpr hro
      · exact absurd hp (by simp)
  case assocType ot =>
    cases ot with
    | none =>
      constructor
      · intro h
        exact absurd h (by simp)
      · rintro (⟨t2, ht2, _⟩ | ⟨p, hp, _⟩)
        · exact absurd ht2 (by simp)
        · exact absurd hp (by simp)
    | some ty =>
      cases ty
      case resolvedPath p =>
        constructor
        · intro h
          exact Or.inr ⟨p, rfl, by simpa using h⟩
        · rintro (⟨t2, ht2, _⟩ | ⟨q, hq, hqid⟩)
          · exact absurd ht2 (by simp)
          · have hpq : p = q := by simpa using hq
            subst hpq
            simpa using hqid
      all_goals
        constructor
        · intro h
          exact absurd h (by simp)
        · rintro (⟨t2, ht2, _⟩ | ⟨q, hq, _⟩)
          · exact absurd ht2 (by simp)
          · exact absurd hq (by simp)
  all_goals
    constructor
    · intro h
      exact absurd h (by simp)
    · rintro (⟨t2, ht2, _⟩ | ⟨q, hq, _⟩)
      · exact absurd ht2 (by simp)
      · exact absurd hq (by simp)

/-- Claim C9, counterexample: two nodes carrying the same item identifier
in the same crate, hence the same hash key, differ in their name field and
are therefore unequal: node equality is the derived structural equality of
the whole item, not equality of identifiers. -/
theorem C9_counterexample :
    wIdA.item.id = wIdB.item.id ∧
      itemNodeHashKey wIdA = itemNodeHashKey wIdB ∧
      wIdA ≠ wIdB := by
  refine ⟨rfl, rfl, ?_⟩
  decide

/-- Claim C9 (amended): ItemNode equality is structural over the whole
item, comparing identifier, crate, name, attributes and payload alike; the
hash key is a function of the crate id and item id alone, so nodes agreeing
on those agree on it; SummaryNode equality holds exactly when the hash keys
(the summary paths) agree. -/
theorem C9_node_identity (a b : ItemNode) (s t : SummaryNode) :
    (a = b ↔ (a.item.id = b.item.id ∧ a.item.crate_id = b.item.crate_id ∧
      a.item.name = b.item.name ∧ a.item.attrs = b.item.attrs ∧
      a.item.inner = b.item.inner)) ∧
    (a.item.crate_id = b.item.crate_id → a.item.id = b.item.id →
      itemNodeHashKey a = itemNodeHashKey b) ∧
    (summaryNodeEq s t ↔ summaryNodeHashKey s = summaryNodeHashKey t) := by
  refine ⟨?_, ?_, Iff.rfl⟩
  · obtain ⟨ai⟩ := a
    obtain ⟨bi⟩ := b
    obtain ⟨aid, acr, anm, aat, ain⟩ := ai
    obtain ⟨bid, bcr, bnm, bat, bin⟩ := bi
    simp [ItemNode.mk.injEq, Item.mk.injEq]
  · intro h1 h2
    unfold itemNodeHashKey
    rw [h1, h2]

/-- Closed instance of claim C9's amended theorem: the two nodes of the
counterexample share a hash key because they share crate id and item id. -/
theorem C9_node_identity_witness :
    itemNodeHashKey wIdA = itemNodeHashKey wIdB :=
  (C9_node_identity wIdA wIdB wRemSummary wRemSummary).2.1 rfl rfl

/-- Claim C10: the __private_field exclusion of has_field applies only to
struct receivers.  A tuple or struct variant accepts any non-skipped field
whose id it declares, whatever the field's effective name; a struct
receiver rejects a field whose rename-aware effective name (ItemNode::name,
so a serde rename counts) is __private_field. -/
theorem C10_private_field_scope (v f : ItemNode) :
    (∀ fids : List (Option RId), v.item.inner = .variant (.tuple fids) →
      f.should_skip = false → fids.contains (Option.some f.item.id) = true →
      v.has_field f = true) ∧
    (∀ fids : List RId, ∀ hs : Bool,
      v.item.inner = .variant (.struct fids hs) →
      f.should_skip = false → fids.contains f.item.id = true →
      v.has_field f = true) ∧
    (∀ k : StructKind, v.item.inner = .struct k →
      f.name = Option.some "__private_field" → v.has_field f = false) := by
  refine ⟨?_, ?_, ?_⟩
  · intro fids hinner hskip hmem
    unfold ItemNode.has_field
    rw [hinner, if_neg (by simp [hskip])]
    exact hmem
  · intro fids hs hinner hskip hmem
    unfold ItemNode.has_field
    rw [hinner, if_neg (by simp [hskip])]
    exact hmem
  · intro k hinner hname
    unfold ItemNode.has_field
    rw [hinner]
    by_cases hskip : f.should_skip = true
    · rw [if_pos hskip]
    · rw [if_neg hskip]
      simp [hname]

/-- Closed instance of claim C10's theorem: the tuple variant V accepts its
declared field even though that field is named __private_field, and the
plain struct P rejects the field renamed to __private_field by a serde
attribute although its source name is ordinary. -/
theorem C10_private_field_scope_witness :
    ItemNode.has_field wPrivVariant wPrivField = true ∧
      ItemNode.has_field wPrivStruct wRenamedPriv = false :=
  ⟨(C10_private_field_scope wPrivVariant wPrivField).1
      [Option.some ⟨92⟩] rfl (by decide) (by decide),
    (C10_private_field_scope wPrivStruct wRenamedPriv).2.2
      (.plain [⟨94⟩] false) rfl (by decide)⟩
